import Mathlib

/-!
# Verification of the implink symlinking tool (src/main.rs)

A shallow embedding of the core of `implink-rs`: the link-creation state
machine `make_symlink` with its forced-removal helper `rm_rf`, the recursive
mover `move_file_or_directory`, the mapping codec
(`generate_mapping` / `restore_mapping`, whose serialization is the
serde_json pretty JSON format), and the replay loop.

Modelling conventions:
* Absolute paths are lists of components (`FPath`); `display` reproduces the
  `/a/b` rendering used in the program's messages.
* The filesystem is a finite tree (`Node`): regular files with string
  content, directories with an ordered association list of children, and
  symbolic links storing their target path.  `lookup`, `insertAt`,
  `removeAt` and `createDirAll` model the path-addressed operations of
  `std::fs`.  Symbolic links are resolved at the final path component only
  (with a resolution budget standing for the OS `ELOOP` limit); resolution
  of links in intermediate components is not modelled, and no scenario
  below depends on it.
* Rust functions returning `Result<(), String>` become functions returning
  a state paired with `RRes`; `RRes.panic` stands for a Rust panic
  (`unwrap` on an error value).  `print!`/`println!` calls on the
  link-creation paths are collected into a log (a `List String`); the
  transient progress rendering of the mover is output-only and is not part
  of the state model.
* The OS primitives used by `make_symlink`/`rm_rf` are collected in a
  `Prims` record so that the embedded control flow is stated once; the
  deterministic filesystem gives the instance `fsPrims`, and small
  adversarial instances realise OS-level failures (permission errors,
  spurious link failures) that the pure tree cannot produce.
* The Windows-only `del` fallback of `rm_rf` and the Windows
  symlink/junction selection are conditionally compiled out of the
  non-Windows build that is modelled here; `_make_symlink` is the plain
  `symlink(src, dst)` of Unix, which fails when the link name is occupied.
-/

/-! ## Paths -/

/-- An absolute path, as its list of components. -/
abbrev FPath := List String

/-- The `Display`/`to_str` rendering of an absolute path, `/a/b`. -/
def display (p : FPath) : String :=
  p.foldl (fun acc c => acc ++ "/" ++ c) ""

/-- `Starts p q` : `p` is an initial segment of `q`. -/
def Starts (p q : FPath) : Prop := ∃ r, q = p ++ r

/-- Boolean version of `Starts`. -/
def pathLe : FPath → FPath → Bool
  | [], _ => true
  | _ :: _, [] => false
  | a :: p, b :: q => decide (a = b) && pathLe p q

instance : ∀ p q : FPath, Decidable (Starts p q) := fun p q =>
  decidable_of_iff (pathLe p q = true) (by
    induction p generalizing q with
    | nil => simp [pathLe, Starts]
    | cons a p ih =>
      cases q with
      | nil =>
        simp only [pathLe, Starts]
        constructor
        · intro h; cases h
        · rintro ⟨r, hr⟩; cases hr
      | cons b q =>
        simp only [pathLe, Bool.and_eq_true, decide_eq_true_eq, ih]
        constructor
        · rintro ⟨rfl, r, rfl⟩; exact ⟨r, rfl⟩
        · rintro ⟨r, hr⟩
          injection hr with h1 h2
          exact ⟨h1.symm ▸ rfl, r, h2⟩)

/-- Two paths are disjoint when neither is an initial segment of the other. -/
def Disj (p q : FPath) : Prop := ¬ Starts p q ∧ ¬ Starts q p

instance : ∀ p q : FPath, Decidable (Disj p q) := fun _ _ => instDecidableAnd

/-! ## Filesystem trees -/

/-- A filesystem entry: regular file, symbolic link, or directory with an
ordered list of named children. -/
inductive Node where
  | file (content : String)
  | symlink (target : FPath)
  | dir (children : List (String × Node))
deriving Repr

/-- First-match association lookup among a directory's children. -/
def lookupChild : List (String × Node) → String → Option Node
  | [], _ => none
  | (n, c) :: rest, name => if n = name then some c else lookupChild rest name

/-- Replace the first binding of `name` or append a new one. -/
def insertChild : List (String × Node) → String → Node → List (String × Node)
  | [], name, node => [(name, node)]
  | (n, c) :: rest, name, node =>
    if n = name then (n, node) :: rest else (n, c) :: insertChild rest name node

/-- Remove every binding of `name`. -/
def removeChild : List (String × Node) → String → List (String × Node)
  | [], _ => []
  | (n, c) :: rest, name =>
    if n = name then removeChild rest name else (n, c) :: removeChild rest name

/-- The child names of a directory listing. -/
def keys (cs : List (String × Node)) : List String := cs.map Prod.fst

/-- No child name occurs twice. -/
def nodupKeys : List (String × Node) → Bool
  | [] => true
  | (n, _) :: rest => (lookupChild rest n).isNone && nodupKeys rest

/-- No direct child is a symbolic link (the scenarios of the
move-and-link property: a directory of nested files and directories). -/
def noLinkChildren : List (String × Node) → Bool
  | [] => true
  | (_, Node.symlink _) :: _ => false
  | _ :: rest => noLinkChildren rest

/-- FPath-addressed lookup (raw: symbolic links are not followed). -/
def lookup : Node → FPath → Option Node
  | n, [] => some n
  | Node.dir cs, name :: rest =>
    match lookupChild cs name with
    | some c => lookup c rest
    | none => none
  | _, _ :: _ => none

/-- Create or overwrite the entry at a (nonempty) path whose parent chain
exists as directories. -/
def insertAt (fs : Node) (p : FPath) (node : Node) : Option Node :=
  match fs, p with
  | _, [] => none
  | Node.dir cs, name :: rest =>
    match rest with
    | [] => some (Node.dir (insertChild cs name node))
    | _ :: _ =>
      match lookupChild cs name with
      | some c => (insertAt c rest node).map (fun c2 => Node.dir (insertChild cs name c2))
      | none => none
  | _, _ :: _ => none

/-- Remove the entry at a (nonempty) path, if it exists. -/
def removeAt (fs : Node) (p : FPath) : Option Node :=
  match fs, p with
  | _, [] => none
  | Node.dir cs, name :: rest =>
    match rest with
    | [] =>
      if (lookupChild cs name).isSome then some (Node.dir (removeChild cs name))
      else none
    | _ :: _ =>
      match lookupChild cs name with
      | some c => (removeAt c rest).map (fun c2 => Node.dir (insertChild cs name c2))
      | none => none
  | _, _ :: _ => none

/-- `std::fs::create_dir_all`: create the directory and all missing
parents; succeeds when every existing entry on the path is a directory. -/
def createDirAll (fs : Node) (p : FPath) : Option Node :=
  match fs, p with
  | Node.dir cs, [] => some (Node.dir cs)
  | Node.dir cs, name :: rest =>
    match lookupChild cs name with
    | some c => (createDirAll c rest).map (fun c2 => Node.dir (insertChild cs name c2))
    | none => (createDirAll (Node.dir []) rest).map (fun c2 => Node.dir (insertChild cs name c2))
  | _, _ => none

/-! ## Filesystem primitives (the `std::fs` / platform layer) -/

/-- Follow a chain of symbolic links at the final component, with a
resolution budget modelling the OS `ELOOP` limit. -/
def resolveLookup (fs : Node) : Nat → FPath → Option Node
  | fuel, p =>
    match lookup fs p, fuel with
    | some (Node.symlink t), fuel + 1 => resolveLookup fs fuel t
    | some (Node.symlink _), 0 => none
    | r, _ => r

/-- `Path::exists` (follows symbolic links). -/
def pathExistsFs (fs : Node) (p : FPath) : Bool :=
  (resolveLookup fs 40 p).isSome

/-- `Path::is_file` (follows symbolic links). -/
def isFileFs (fs : Node) (p : FPath) : Bool :=
  match resolveLookup fs 40 p with
  | some (Node.file _) => true
  | _ => false

/-- `Path::is_dir` (follows symbolic links). -/
def isDirFs (fs : Node) (p : FPath) : Bool :=
  match resolveLookup fs 40 p with
  | some (Node.dir _) => true
  | _ => false

/-- `read_dir`: the child names, in directory order. -/
def readDirNames (fs : Node) (p : FPath) : Option (List String) :=
  match lookup fs p with
  | some (Node.dir cs) => some (keys cs)
  | _ => none

/-- `std::fs::remove_dir_all`: recursive removal of a directory. -/
def removeDirAllFs (fs : Node) (p : FPath) : Except String Node :=
  match lookup fs p with
  | some (Node.dir _) =>
    match removeAt fs p with
    | some fs1 => Except.ok fs1
    | none => Except.error "(os error)"
  | _ => Except.error "(os error)"

/-- `std::fs::rename`: relocate the entry at `src` to `dst`. -/
def fsRename (fs : Node) (src dst : FPath) : Option Node :=
  match lookup fs src with
  | some t =>
    match removeAt fs src with
    | some fs1 => insertAt fs1 dst t
    | none => none
  | none => none

/-- The state effect of `fs_extra`'s `move_dir_with_progress` /
`move_file_with_progress` (copy to the destination, then delete the
source); the destination must not already exist (default `CopyOptions`,
no overwrite). -/
def fsMoveEntry (fs : Node) (src dst : FPath) : Option Node :=
  match lookup fs src with
  | none => none
  | some t =>
    if (lookup fs dst).isSome then none
    else
      match insertAt fs dst t with
      | none => none
      | some fs1 => removeAt fs1 src

/-- Outcome of an embedded Rust function: `Ok(())`, `Err(msg)`, or a
panic (an `unwrap` on an error value). -/
inductive RRes where
  | ok
  | err (msg : String)
  | panic
deriving Repr, DecidableEq

/-! ## Error message texts (`format!` strings of src/main.rs) -/

def srcMissingMsg (p : FPath) : String :=
  "Source file or directory '" ++ display p ++ "' does not exist"

def probeFailMsg (p : FPath) (e : String) : String :=
  "Failed to check destination file or directory '" ++ display p ++ "': " ++ e

def destExistsMsg (p : FPath) : String :=
  "Destination file or directory '" ++ display p ++ "' already exists"

def linkFailMsg (p : FPath) (e : String) : String :=
  "Failed to create symlink '" ++ display p ++ "': " ++ e

def symlinkedMsg (s d : FPath) : String :=
  "Symlinked '" ++ display s ++ "' to '" ++ display d ++ "'"

def tryRemoveMsg (p : FPath) : String :=
  "Trying to remove destination file or directory '" ++ display p ++ "'... "

def rmRetryFailMsg (p : FPath) (e : String) : String :=
  "Failed to remove destination file or directory '" ++ display p ++ "': " ++ e

def rmFileFailMsg (p : FPath) (e : String) : String :=
  "Failed to remove destination file '" ++ display p ++ "': " ++ e

def rmDirFailMsg (p : FPath) (e : String) : String :=
  "Failed to remove destination directory '" ++ display p ++ "': " ++ e

def notEmptyMsg (p : FPath) : String :=
  "Destination directory '" ++ display p ++ "' is not empty"

def mkDirFailMsg (p : FPath) : String :=
  "Failed to create destination directory '" ++ display p ++ "': (os error)"

def renameFailMsg (s d : FPath) : String :=
  "Failed to move file '" ++ display s ++ "' to '" ++ display d ++ "': (os error)"

def moveChildFailMsg (s d : FPath) : String :=
  "Failed to move directory '" ++ display s ++ "' to '" ++ display d ++ "': (os error)"

/-! ## The OS primitives consumed by `make_symlink` and `rm_rf`

The state type `σ` is abstract: the operating system answers each probe
and performs every mutation.  The deterministic filesystem tree gives the
instance `fsPrims`; other instances realise OS failure modes (permission
errors, races) that a pure tree cannot exhibit. -/

structure Prims (σ : Type) where
  pathExists : σ → FPath → Bool
  isFile : σ → FPath → Bool
  tryExists : σ → FPath → Except String Bool
  removeDir : σ → FPath → Except String σ
  removeFile : σ → FPath → Except String σ
  removeDirAll : σ → FPath → Except String σ
  makeSymlinkPrim : σ → FPath → FPath → Bool → Except String σ

/-- `rm_rf` (src/main.rs lines 195-247): remove a file with `remove_file`,
anything else with `remove_dir_all`.  The Windows-only `del /f /q /s`
fallback is conditionally compiled out on the modelled platform. -/
def rm_rf (P : Prims σ) (dst : FPath) (s : σ) : σ × Except String Unit :=
  if P.isFile s dst then
    match P.removeFile s dst with
    | Except.ok s1 => (s1, Except.ok ())
    | Except.error e => (s, Except.error (rmFileFailMsg dst e))
  else
    match P.removeDirAll s dst with
    | Except.ok s1 => (s1, Except.ok ())
    | Except.error e => (s, Except.error (rmDirFailMsg dst e))

/-- The `CreateLink` stage of `make_symlink` (src/main.rs lines 292-338):
first `_make_symlink` attempt; on failure without `force` the error is
fatal; with `force` the error is logged, `rm_rf` is re-invoked on the
destination, and `_make_symlink` is retried exactly once.  Note that the
message of the returned error holds the *latest* underlying error only
(the retry failure, or the failure of the retry-path `rm_rf`). -/
def ms_create (P : Prims σ) (src dst : FPath) (force uj : Bool) (s : σ) :
    σ × List String × RRes :=
  match P.makeSymlinkPrim s src dst uj with
  | Except.ok s1 => (s1, [symlinkedMsg src dst], RRes.ok)
  | Except.error e =>
    if force = false then
      (s, [], RRes.err (linkFailMsg dst e))
    else
      match rm_rf P dst s with
      | (s1, Except.error e2) =>
        (s1, ["Error: " ++ e, tryRemoveMsg dst, "FAILED", rmRetryFailMsg dst e2],
          RRes.err (linkFailMsg dst e2))
      | (s1, Except.ok ()) =>
        match P.makeSymlinkPrim s1 src dst uj with
        | Except.ok s2 =>
          (s2, ["Error: " ++ e, tryRemoveMsg dst, "OK", symlinkedMsg src dst], RRes.ok)
        | Except.error e3 =>
          (s1, ["Error: " ++ e, tryRemoveMsg dst, "OK"], RRes.err (linkFailMsg dst e3))

/-- The `Clear` stage of `make_symlink` (src/main.rs lines 277-291), run
when the destination was found (or assumed) to exist: without `force` a
single narrow `remove_dir` probe, whose failure yields the
already-exists error; with `force` an unconditional `rm_rf` whose result
is `unwrap`ped — failure is a panic, not a returned error. -/
def ms_clear (P : Prims σ) (src dst : FPath) (force uj : Bool) (s : σ)
    (dstExists : Bool) : σ × List String × RRes :=
  if dstExists then
    if force = false then
      match P.removeDir s dst with
      | Except.ok s1 => ms_create P src dst force uj s1
      | Except.error _ => (s, [], RRes.err (destExistsMsg dst))
    else
      match rm_rf P dst s with
      | (s1, Except.ok ()) => ms_create P src dst force uj s1
      | (s1, Except.error _) => (s1, [], RRes.panic)
  else
    ms_create P src dst force uj s

/-- `make_symlink` (src/main.rs lines 249-339): validate the source,
probe the destination with `try_exists` (a probe error is fatal without
`force`, and conservatively treated as "exists" with it), clear the
destination, create the link. -/
def make_symlink (P : Prims σ) (src dst : FPath) (force uj : Bool) (s : σ) :
    σ × List String × RRes :=
  if P.pathExists s src = false then
    (s, [], RRes.err (srcMissingMsg src))
  else
    match P.tryExists s dst with
    | Except.ok r => ms_clear P src dst force uj s r
    | Except.error e =>
      if force = false then
        (s, [], RRes.err (probeFailMsg dst e))
      else
        ms_clear P src dst force uj s true

/-- The deterministic filesystem instance of the OS primitives. -/
def fsPrims : Prims Node where
  pathExists := fun fs p => pathExistsFs fs p
  isFile := fun fs p => isFileFs fs p
  tryExists := fun fs p => Except.ok (pathExistsFs fs p)
  removeDir := fun fs p =>
    match lookup fs p with
    | some (Node.dir []) =>
      match removeAt fs p with
      | some fs1 => Except.ok fs1
      | none => Except.error "(os error)"
    | _ => Except.error "(os error)"
  removeFile := fun fs p =>
    match lookup fs p with
    | some (Node.file _) =>
      match removeAt fs p with
      | some fs1 => Except.ok fs1
      | none => Except.error "(os error)"
    | some (Node.symlink _) =>
      match removeAt fs p with
      | some fs1 => Except.ok fs1
      | none => Except.error "(os error)"
    | _ => Except.error "(os error)"
  removeDirAll := fun fs p => removeDirAllFs fs p
  makeSymlinkPrim := fun fs src dst _ =>
    if (lookup fs dst).isSome then Except.error "File exists (os error 17)"
    else
      match insertAt fs dst (Node.symlink src) with
      | some fs1 => Except.ok fs1
      | none => Except.error "No such file or directory (os error 2)"

/-- An environment in which every removal primitive fails (a permission
failure the pure filesystem tree cannot exhibit). -/
def C2Prims : Prims Unit where
  pathExists := fun _ _ => true
  isFile := fun _ _ => true
  tryExists := fun _ _ => Except.ok true
  removeDir := fun _ _ => Except.error "(permission denied)"
  removeFile := fun _ _ => Except.error "(permission denied)"
  removeDirAll := fun _ _ => Except.error "(permission denied)"
  makeSymlinkPrim := fun _ _ _ _ => Except.error "(os error)"

/-- An environment whose link primitive fails with a first and then a
second distinct error, while file removal succeeds (the state counts the
removals performed). -/
def C4Prims : Prims Nat where
  pathExists := fun _ _ => true
  isFile := fun _ _ => true
  tryExists := fun _ _ => Except.ok false
  removeDir := fun _ _ => Except.error "(os error)"
  removeFile := fun n _ => Except.ok (n + 1)
  removeDirAll := fun _ _ => Except.error "(os error)"
  makeSymlinkPrim := fun n _ _ _ =>
    Except.error (if n = 0 then "link error one" else "link error two")

/-! ## The recursive mover -/

/-- The child loop of `move_file_or_directory` (src/main.rs lines
146-189): each direct child of `src` is moved under `dst` (subdirectories
wholesale via `move_dir_with_progress`, files via
`move_file_with_progress` at their relative path). -/
def moveChildren (src dst : FPath) (names : List String) (fs : Node) :
    Node × RRes :=
  match names with
  | [] => (fs, RRes.ok)
  | name :: rest =>
    if isDirFs fs (src ++ [name]) then
      match fsMoveEntry fs (src ++ [name]) (dst ++ [name]) with
      | some fs1 => moveChildren src dst rest fs1
      | none => (fs, RRes.err (moveChildFailMsg src dst))
    else
      match fsMoveEntry fs (src ++ [name]) (dst ++ [name]) with
      | some fs1 => moveChildren src dst rest fs1
      | none => (fs, RRes.err (moveChildFailMsg src dst))

/-- `src.read_dir().unwrap()` followed by the child loop; a `read_dir`
failure is a panic. -/
def mv_children_start (src dst : FPath) (fs : Node) : Node × RRes :=
  match readDirNames fs src with
  | none => (fs, RRes.panic)
  | some names => moveChildren src dst names fs

/-- `move_file_or_directory` (src/main.rs lines 82-193): files are
renamed; for directories the destination is created if missing, required
empty (or force-cleared) otherwise, and then the children are moved. -/
def move_file_or_directory (src dst : FPath) (force : Bool) (fs : Node) :
    Node × RRes :=
  if isFileFs fs src then
    match fsRename fs src dst with
    | some fs1 => (fs1, RRes.ok)
    | none => (fs, RRes.err (renameFailMsg src dst))
  else
    if pathExistsFs fs dst = false then
      match createDirAll fs dst with
      | some fs1 => mv_children_start src dst fs1
      | none => (fs, RRes.err (mkDirFailMsg dst))
    else
      match readDirNames fs dst with
      | none => (fs, RRes.panic)
      | some dnames =>
        if dnames.isEmpty = false then
          if force = false then
            (fs, RRes.err (notEmptyMsg dst))
          else
            match removeDirAllFs fs dst with
            | Except.error e => (fs, RRes.err (rmDirFailMsg dst e))
            | Except.ok fs1 =>
              match createDirAll fs1 dst with
              | some fs2 => mv_children_start src dst fs2
              | none => (fs1, RRes.panic)
        else
          mv_children_start src dst fs

/-- The `--move-and-link` flow of `main` (src/main.rs lines 398-412):
move `src` to `dst`, then symlink `dst` back at `src`; the first failing
step aborts. -/
def move_and_link (src dst : FPath) (force uj : Bool) (fs : Node) :
    Node × RRes :=
  match move_file_or_directory src dst force fs with
  | (fs1, RRes.ok) =>
    match make_symlink fsPrims dst src force uj fs1 with
    | (fs2, _, r) => (fs2, r)
  | (fs1, r) => (fs1, r)

/-- The unguarded progress computation
`copied_bytes * 100 / total_bytes` of the `dir_handler` and file-move
progress closures (src/main.rs lines 110 and 174).  The operands are
`u64`; the product wraps modulo `2^64` and the division panics (`none`)
when the divisor is zero. -/
def progressPercent (copied total : Nat) : Option Nat :=
  if total = 0 then none else some (copied * 100 % 2 ^ 64 / total)

/-! ## The mapping codec -/

/-- The persisted record (`struct Mapping` of src/main.rs). -/
structure Mapping where
  src : String
  dst : String
  force : Bool
  junction : Bool
deriving Repr, DecidableEq

/-- Split on `/`, accumulating the current component in reverse. -/
def splitComponents : List Char → List Char → List String
  | [], acc => [String.mk acc.reverse]
  | c :: rest, acc =>
    if c = '/' then String.mk acc.reverse :: splitComponents rest []
    else splitComponents rest (c :: acc)

/-- `PathBuf::from` on a stored absolute path string: the non-empty
slash-separated components. -/
def pathComponents (s : String) : FPath :=
  (splitComponents s.data []).filter (fun c => c ≠ "")

/-- The replay loop of `restore_mapping` (src/main.rs lines 367-377):
one `make_symlink` call per record, in file order; the first failure
(or panic) ends the run. -/
def replayMappings : List Mapping → Node → Node × RRes
  | [], fs => (fs, RRes.ok)
  | m :: rest, fs =>
    match make_symlink fsPrims (pathComponents m.src) (pathComponents m.dst)
        m.force m.junction fs with
    | (fs1, _, RRes.ok) => replayMappings rest fs1
    | (fs1, _, RRes.err e) => (fs1, RRes.err e)
    | (fs1, _, RRes.panic) => (fs1, RRes.panic)

/-! ## JSON serialization (the serde_json layer)

`generate_mapping` serializes a `MappingFile { mapping: Vec<Mapping> }`
with `serde_json::to_string_pretty` (two-space indentation, struct fields
in declaration order, JSON string escaping); `restore_mapping`
deserializes with `serde_json::from_str` (whitespace-tolerant parsing
into a JSON value, then field lookup by name).  Both are modelled here on
the JSON fragment the format uses: strings, booleans, arrays, objects. -/

inductive Json where
  | str (s : String)
  | bool (b : Bool)
  | arr (elems : List Json)
  | obj (fields : List (String × Json))

/-- The JSON value serde produces for one record. -/
def jsonOfMapping (m : Mapping) : Json :=
  Json.obj [("src", Json.str m.src), ("dst", Json.str m.dst),
    ("force", Json.bool m.force), ("junction", Json.bool m.junction)]

/-- Hexadecimal digit characters for `\u00XX` escapes. -/
def hexDigit (n : Nat) : Char :=
  if n < 10 then Char.ofNat (48 + n) else Char.ofNat (97 + n - 10)

/-- The numeric value of a hexadecimal digit character. -/
def hexDigitVal (c : Char) : Option Nat :=
  if 48 ≤ c.toNat ∧ c.toNat ≤ 57 then some (c.toNat - 48)
  else if 97 ≤ c.toNat ∧ c.toNat ≤ 102 then some (c.toNat - 97 + 10)
  else if 65 ≤ c.toNat ∧ c.toNat ≤ 70 then some (c.toNat - 65 + 10)
  else none

/-- JSON string escaping as performed by serde_json: quote, backslash and
the named control characters get two-character escapes, any other control
character a `\u00XX` escape, and everything else passes through. -/
def escapeChar (c : Char) : List Char :=
  if c = '"' then ['\\', '"']
  else if c = '\\' then ['\\', '\\']
  else if c = '\n' then ['\\', 'n']
  else if c = '\r' then ['\\', 'r']
  else if c = '\t' then ['\\', 't']
  else if c.toNat = 8 then ['\\', 'b']
  else if c.toNat = 12 then ['\\', 'f']
  else if c.toNat < 32 then
    ['\\', 'u', '0', '0', hexDigit (c.toNat / 16), hexDigit (c.toNat % 16)]
  else [c]

def escapeList : List Char → List Char
  | [] => []
  | c :: rest => escapeChar c ++ escapeList rest

/-- A JSON string literal: quote, escaped content, quote. -/
def quoteStr (s : String) : List Char :=
  '"' :: (escapeList s.data ++ ['"'])

/-- `n` spaces of indentation. -/
def sp (n : Nat) : List Char := List.replicate n ' '

def renderBool : Bool → List Char
  | true => ['t', 'r', 'u', 'e']
  | false => ['f', 'a', 'l', 's', 'e']

/-- One serialized `Mapping` record, as `to_string_pretty` prints it at
depth 2 (fields indented by six spaces, the closing brace by four), in
continuation style: `k` is the text that follows.  The explicit
right-nested spelling makes the parse of the rendered text compute
definitionally up to the escaped string contents. -/
def renderMappingK (m : Mapping) (k : List Char) : List Char :=
  '{' :: '\n' :: (sp 6 ++ ('"' :: 's' :: 'r' :: 'c' :: '"' :: ':' :: ' ' :: '"' ::
    (escapeList m.src.data ++ ('"' :: ',' :: '\n' ::
    (sp 6 ++ ('"' :: 'd' :: 's' :: 't' :: '"' :: ':' :: ' ' :: '"' ::
    (escapeList m.dst.data ++ ('"' :: ',' :: '\n' ::
    (sp 6 ++ ('"' :: 'f' :: 'o' :: 'r' :: 'c' :: 'e' :: '"' :: ':' :: ' ' ::
    (renderBool m.force ++ (',' :: '\n' ::
    (sp 6 ++ ('"' :: 'j' :: 'u' :: 'n' :: 'c' :: 't' :: 'i' :: 'o' :: 'n' :: '"' :: ':' :: ' ' ::
    (renderBool m.junction ++ ('\n' :: (sp 4 ++ ('}' :: k))))))))))))))))))

/-- Second and later array elements: a comma, a line break, indentation,
the element, then the rest. -/
def renderMappingsAuxK : List Mapping → List Char → List Char
  | [], k => k
  | m :: rest, k => ',' :: '\n' :: (sp 4 ++ renderMappingK m (renderMappingsAuxK rest k))

/-- The serialized `mapping` array (empty arrays print as `[]`). -/
def renderMappingsK : List Mapping → List Char → List Char
  | [], k => '[' :: ']' :: k
  | m :: rest, k =>
    '[' :: '\n' :: (sp 4 ++
      renderMappingK m (renderMappingsAuxK rest ('\n' :: (sp 2 ++ (']' :: k)))))

/-- The full pretty-printed text of a `MappingFile`. -/
def writeData (records : List Mapping) : List Char :=
  '{' :: '\n' :: (sp 2 ++
    ('"' :: 'm' :: 'a' :: 'p' :: 'p' :: 'i' :: 'n' :: 'g' :: '"' :: ':' :: ' ' ::
      renderMappingsK records ('\n' :: ['}'])))

/-- `serde_json::to_string_pretty(&MappingFile { mapping })`, the writer
of `generate_mapping` (src/main.rs lines 341-361), generalised from the
singleton vector the CLI builds to any record list the format holds. -/
def writeMappingFile (records : List Mapping) : String :=
  String.mk (writeData records)

/-- JSON insignificant whitespace. -/
def isWs (c : Char) : Bool := c = ' ' || c = '\n' || c = '\t' || c = '\r'

def skipWs : List Char → List Char
  | [] => []
  | c :: rest => if isWs c then skipWs rest else c :: rest

/-- Parse the remainder of a JSON string literal (after the opening
quote) up to its closing quote, unescaping; raw control characters are
rejected.  (Surrogate-pair `\u` escapes are beyond the code points the
writer emits and are not modelled.) -/
def parseStringBody : List Char → Option (List Char × List Char)
  | [] => none
  | '"' :: rest => some ([], rest)
  | '\\' :: 'u' :: h1 :: h2 :: h3 :: h4 :: rest =>
    (match hexDigitVal h1, hexDigitVal h2, hexDigitVal h3, hexDigitVal h4 with
     | some a, some b, some c, some d =>
       (parseStringBody rest).map
         (fun x => (Char.ofNat (((a * 16 + b) * 16 + c) * 16 + d) :: x.1, x.2))
     | _, _, _, _ => none)
  | ['\\'] => none
  | '\\' :: e :: rest =>
    if e = '"' then (parseStringBody rest).map (fun x => ('"' :: x.1, x.2))
    else if e = '\\' then (parseStringBody rest).map (fun x => ('\\' :: x.1, x.2))
    else if e = '/' then (parseStringBody rest).map (fun x => ('/' :: x.1, x.2))
    else if e = 'n' then (parseStringBody rest).map (fun x => ('\n' :: x.1, x.2))
    else if e = 'r' then (parseStringBody rest).map (fun x => ('\r' :: x.1, x.2))
    else if e = 't' then (parseStringBody rest).map (fun x => ('\t' :: x.1, x.2))
    else if e = 'b' then (parseStringBody rest).map (fun x => (Char.ofNat 8 :: x.1, x.2))
    else if e = 'f' then (parseStringBody rest).map (fun x => (Char.ofNat 12 :: x.1, x.2))
    else none
  | c :: rest =>
    if c.toNat < 32 then none
    else (parseStringBody rest).map (fun x => (c :: x.1, x.2))

mutual

/-- Recursive-descent parser for the JSON fragment, with a recursion
budget. -/
def parseValue : Nat → List Char → Option (Json × List Char)
  | 0, _ => none
  | fuel + 1, l =>
    match skipWs l with
    | '"' :: rest => (parseStringBody rest).map (fun x => (Json.str (String.mk x.1), x.2))
    | 't' :: 'r' :: 'u' :: 'e' :: rest => some (Json.bool true, rest)
    | 'f' :: 'a' :: 'l' :: 's' :: 'e' :: rest => some (Json.bool false, rest)
    | '[' :: rest =>
      (match skipWs rest with
       | ']' :: rest2 => some (Json.arr [], rest2)
       | _ => (parseElems fuel rest).map (fun x => (Json.arr x.1, x.2)))
    | '{' :: rest =>
      (match skipWs rest with
       | '}' :: rest2 => some (Json.obj [], rest2)
       | _ => (parseFields fuel rest).map (fun x => (Json.obj x.1, x.2)))
    | _ => none

/-- One or more comma-separated array elements, then `]`. -/
def parseElems : Nat → List Char → Option (List Json × List Char)
  | 0, _ => none
  | fuel + 1, l =>
    match parseValue fuel l with
    | none => none
    | some (j, rest) =>
      match skipWs rest with
      | ',' :: rest2 => (parseElems fuel rest2).map (fun x => (j :: x.1, x.2))
      | ']' :: rest2 => some ([j], rest2)
      | _ => none

/-- One or more `"key": value` object fields, then `}`. -/
def parseFields : Nat → List Char → Option (List (String × Json) × List Char)
  | 0, _ => none
  | fuel + 1, l =>
    match skipWs l with
    | '"' :: rest =>
      match parseStringBody rest with
      | none => none
      | some (k, rest2) =>
        match skipWs rest2 with
        | ':' :: rest3 =>
          match parseValue fuel rest3 with
          | none => none
          | some (v, rest4) =>
            match skipWs rest4 with
            | ',' :: rest5 =>
              (parseFields fuel rest5).map (fun x => ((String.mk k, v) :: x.1, x.2))
            | '}' :: rest5 => some ([(String.mk k, v)], rest5)
            | _ => none
        | _ => none
    | _ => none

end

/-- Field lookup in a parsed JSON object (serde matches fields by name,
in any order; the first binding wins). -/
def jLookup : List (String × Json) → String → Option Json
  | [], _ => none
  | (k, v) :: rest, name => if k = name then some v else jLookup rest name

/-- Decode one record: the four fields of `struct Mapping`, each of the
required type (missing or ill-typed fields fail the read). -/
def decodeMapping : Json → Option Mapping
  | Json.obj fields =>
    match jLookup fields "src", jLookup fields "dst",
        jLookup fields "force", jLookup fields "junction" with
    | some (Json.str s), some (Json.str d), some (Json.bool f), some (Json.bool j) =>
      some { src := s, dst := d, force := f, junction := j }
    | _, _, _, _ => none
  | _ => none

def decodeMappings : Json → Option (List Mapping)
  | Json.arr elems =>
    elems.foldr
      (fun e acc =>
        match decodeMapping e, acc with
        | some m, some ms => some (m :: ms)
        | _, _ => none)
      (some [])
  | _ => none

/-- Decode the top-level `MappingFile { mapping }` object. -/
def decodeMappingFile : Json → Option (List Mapping)
  | Json.obj fields =>
    match jLookup fields "mapping" with
    | some v => decodeMappings v
    | none => none
  | _ => none

/-- `serde_json::from_str::<MappingFile>`: parse a JSON value (requiring
only whitespace after it) and decode the record list. -/
def readMappingFile (s : String) : Option (List Mapping) :=
  match parseValue (s.length + 1) s.data with
  | some (j, rest) => if skipWs rest = [] then decodeMappingFile j else none
  | none => none

/-- `restore_mapping` (src/main.rs lines 363-379): the file read result
is modelled as an `Except` input; both a read error and a parse failure
hit an `unwrap` and panic, otherwise the records are replayed. -/
def restore_mapping (io : Except String String) (fs : Node) : Node × RRes :=
  match io with
  | Except.error _ => (fs, RRes.panic)
  | Except.ok s =>
    match readMappingFile s with
    | none => (fs, RRes.panic)
    | some ms => replayMappings ms fs


/-! ## Substring occurrence (for statements about error-message context) -/

def startsWithL : List Char → List Char → Bool
  | _, [] => true
  | [], _ :: _ => false
  | a :: h, b :: n => decide (a = b) && startsWithL h n

def containsSub : List Char → List Char → Bool
  | [], needle => startsWithL [] needle
  | a :: t, needle => startsWithL (a :: t) needle || containsSub t needle

/-- `strContains hay needle`: the needle occurs contiguously in the hay. -/
def strContains (hay needle : String) : Bool := containsSub hay.data needle.data

/-! ## Lemmas about paths -/

theorem starts_refl (p : FPath) : Starts p p := ⟨[], by simp⟩

theorem starts_append (p r : FPath) : Starts p (p ++ r) := ⟨r, rfl⟩

theorem starts_nil (q : FPath) : Starts [] q := ⟨q, rfl⟩

theorem starts_trans {p q r : FPath} (h1 : Starts p q) (h2 : Starts q r) :
    Starts p r := by
  obtain ⟨u, rfl⟩ := h1
  obtain ⟨v, rfl⟩ := h2
  exact ⟨u ++ v, by simp⟩

theorem starts_cons_iff (a b : String) (p q : FPath) :
    Starts (a :: p) (b :: q) ↔ a = b ∧ Starts p q := by
  constructor
  · rintro ⟨r, hr⟩
    injection hr with h1 h2
    exact ⟨h1.symm, r, h2⟩
  · rintro ⟨rfl, r, rfl⟩
    exact ⟨r, rfl⟩

theorem starts_length_le {p q : FPath} (h : Starts p q) : p.length ≤ q.length := by
  obtain ⟨r, rfl⟩ := h
  simp

theorem starts_of_starts_append {p a c : FPath} (h : Starts p (a ++ c))
    (hl : p.length ≤ a.length) : Starts p a := by
  induction p generalizing a with
  | nil => exact starts_nil a
  | cons x p ih =>
    cases a with
    | nil => simp at hl
    | cons y a =>
      rw [List.cons_append] at h
      rw [starts_cons_iff] at h ⊢
      exact ⟨h.1, ih h.2 (by simpa using hl)⟩

theorem starts_snoc {p q : FPath} {x : String} (h : Starts p (q ++ [x])) :
    Starts p q ∨ p = q ++ [x] := by
  rcases Nat.lt_or_ge q.length p.length with hl | hl
  · right
    obtain ⟨r, hr⟩ := h
    have hlen : q.length + 1 = p.length + r.length := by
      have := congrArg List.length hr
      simpa using this
    have hr0 : r = [] := by
      cases r with
      | nil => rfl
      | cons c cs => simp at hlen; omega
    subst hr0
    simpa using hr.symm
  · exact Or.inl (starts_of_starts_append h hl)

theorem disj_symm {p q : FPath} (h : Disj p q) : Disj q p := ⟨h.2, h.1⟩

theorem disj_ne_nil {p q : FPath} (h : Disj p q) : p ≠ [] ∧ q ≠ [] := by
  constructor
  · rintro rfl; exact h.1 (starts_nil q)
  · rintro rfl; exact h.2 (starts_nil p)

theorem disj_snoc_left {p q : FPath} (x : String) (h : Disj p q) :
    Disj (p ++ [x]) q := by
  constructor
  · intro hs
    exact h.1 (starts_trans (starts_append p [x]) hs)
  · intro hs
    rcases starts_snoc hs with h1 | h1
    · exact h.2 h1
    · exact h.1 (h1 ▸ starts_append p [x])

theorem disj_snoc_right {p q : FPath} (x : String) (h : Disj p q) :
    Disj p (q ++ [x]) := disj_symm (disj_snoc_left x (disj_symm h))

theorem starts_append_cancel {u v : FPath} :
    ∀ a : FPath, Starts (a ++ u) (a ++ v) ↔ Starts u v := by
  intro a
  induction a with
  | nil => simp
  | cons x a ih => simpa [starts_cons_iff] using ih

theorem disj_snoc_snoc (p : FPath) {x y : String} (h : x ≠ y) :
    Disj (p ++ [x]) (p ++ [y]) := by
  constructor
  · intro hs
    rw [starts_append_cancel] at hs
    obtain ⟨r, hr⟩ := hs
    injection hr with h1 _
    exact h h1.symm
  · intro hs
    rw [starts_append_cancel] at hs
    obtain ⟨r, hr⟩ := hs
    injection hr with h1 _
    exact h h1

/-! ## Lemmas about directory listings -/

theorem lookupChild_insertChild_self (cs : List (String × Node)) (n : String) (v : Node) :
    lookupChild (insertChild cs n v) n = some v := by
  induction cs with
  | nil => simp [insertChild, lookupChild]
  | cons c rest ih =>
    obtain ⟨m, x⟩ := c
    by_cases h : m = n
    · simp [insertChild, lookupChild, h]
    · simp [insertChild, lookupChild, h, ih]

theorem lookupChild_insertChild_ne (cs : List (String × Node)) {n m : String}
    (v : Node) (h : m ≠ n) :
    lookupChild (insertChild cs n v) m = lookupChild cs m := by
  induction cs with
  | nil => simp [insertChild, lookupChild, Ne.symm h]
  | cons c rest ih =>
    obtain ⟨k, x⟩ := c
    by_cases hk : k = n
    · subst hk
      simp [insertChild, lookupChild, Ne.symm h]
    · simp [insertChild, lookupChild, hk, ih]

theorem lookupChild_removeChild_self (cs : List (String × Node)) (n : String) :
    lookupChild (removeChild cs n) n = none := by
  induction cs with
  | nil => simp [removeChild, lookupChild]
  | cons c rest ih =>
    obtain ⟨k, x⟩ := c
    by_cases hk : k = n
    · simp [removeChild, hk, ih]
    · simp [removeChild, lookupChild, hk, ih]

theorem lookupChild_removeChild_ne (cs : List (String × Node)) {n m : String}
    (h : m ≠ n) : lookupChild (removeChild cs n) m = lookupChild cs m := by
  induction cs with
  | nil => simp [removeChild]
  | cons c rest ih =>
    obtain ⟨k, x⟩ := c
    by_cases hk : k = n
    · subst hk
      simp [removeChild, lookupChild, Ne.symm h, ih]
    · simp [removeChild, lookupChild, hk, ih]

theorem insertChild_of_fresh {cs : List (String × Node)} {n : String}
    (h : lookupChild cs n = none) (v : Node) :
    insertChild cs n v = cs ++ [(n, v)] := by
  induction cs with
  | nil => simp [insertChild]
  | cons c rest ih =>
    obtain ⟨k, x⟩ := c
    by_cases hk : k = n
    · simp [lookupChild, hk] at h
    · simp [lookupChild, hk] at h
      simp [insertChild, hk, ih h]

theorem removeChild_of_fresh {cs : List (String × Node)} {n : String}
    (h : lookupChild cs n = none) : removeChild cs n = cs := by
  induction cs with
  | nil => simp [removeChild]
  | cons c rest ih =>
    obtain ⟨k, x⟩ := c
    by_cases hk : k = n
    · simp [lookupChild, hk] at h
    · simp [lookupChild, hk] at h
      simp [removeChild, hk, ih h]

theorem lookupChild_append_of_none {cs : List (String × Node)} {n : String}
    (h : lookupChild cs n = none) (ds : List (String × Node)) :
    lookupChild (cs ++ ds) n = lookupChild ds n := by
  induction cs with
  | nil => simp
  | cons c rest ih =>
    obtain ⟨k, x⟩ := c
    by_cases hk : k = n
    · simp [lookupChild, hk] at h
    · simp [lookupChild, hk] at h ⊢
      exact ih h

theorem nodupKeys_cons {n : String} {t : Node} {rest : List (String × Node)}
    (h : nodupKeys ((n, t) :: rest) = true) :
    lookupChild rest n = none ∧ nodupKeys rest = true := by
  simp [nodupKeys, Option.isNone_iff_eq_none] at h
  exact h

/-! ## Lemmas about path-addressed tree operations -/

theorem disj_cons {a : String} {u v : FPath} (h : Disj (a :: u) (a :: v)) :
    Disj u v := by
  constructor
  · intro hs; exact h.1 ((starts_cons_iff a a u v).mpr ⟨rfl, hs⟩)
  · intro hs; exact h.2 ((starts_cons_iff a a v u).mpr ⟨rfl, hs⟩)

theorem lookup_snoc (fs : Node) (p : FPath) (x : String) :
    lookup fs (p ++ [x]) =
      (match lookup fs p with
       | some (Node.dir cs) => lookupChild cs x
       | _ => none) := by
  induction p generalizing fs with
  | nil =>
    cases fs with
    | file c => simp [lookup]
    | symlink t => simp [lookup]
    | dir cs =>
      simp only [List.nil_append, lookup]
      cases h : lookupChild cs x with
      | none => simp [h]
      | some c => simp [h, lookup]
  | cons a p ih =>
    cases fs with
    | file c => simp [lookup]
    | symlink t => simp [lookup]
    | dir cs =>
      simp only [List.cons_append, lookup]
      cases h : lookupChild cs a with
      | none => simp
      | some c => exact ih c

/-- Removal of an existing entry: it succeeds, afterwards the entry is
gone, and every path disjoint from the removed one is untouched. -/
theorem removeAt_spec {fs : Node} {p : FPath} {e : Node}
    (hl : lookup fs p = some e) (hp : p ≠ []) :
    ∃ fs1, removeAt fs p = some fs1 ∧ lookup fs1 p = none ∧
      ∀ q, Disj p q → lookup fs1 q = lookup fs q := by
  induction p generalizing fs e with
  | nil => exact absurd rfl hp
  | cons a p ih =>
    cases fs with
    | file c => simp [lookup] at hl
    | symlink t => simp [lookup] at hl
    | dir cs =>
      simp only [lookup] at hl
      cases hc : lookupChild cs a with
      | none => simp [hc] at hl
      | some c =>
        simp only [hc] at hl
        cases p with
        | nil =>
          refine ⟨Node.dir (removeChild cs a), ?_, ?_, ?_⟩
          · simp [removeAt, hc]
          · simp [lookup, lookupChild_removeChild_self]
          · intro q hq
            obtain ⟨b, qr, rfl⟩ : ∃ b qr, q = b :: qr := by
              cases q with
              | nil => exact absurd (starts_nil [a]) hq.2
              | cons b qr => exact ⟨b, qr, rfl⟩
            have hb : b ≠ a := by
              rintro rfl
              exact hq.1 ⟨qr, rfl⟩
            simp [lookup, lookupChild_removeChild_ne cs hb]
        | cons y p' =>
          obtain ⟨c1, hr, hn, hq⟩ := ih hl (by simp)
          refine ⟨Node.dir (insertChild cs a c1), ?_, ?_, ?_⟩
          · simp [removeAt, hc, hr]
          · simp [lookup, lookupChild_insertChild_self, hn]
          · intro q hdq
            obtain ⟨b, qr, rfl⟩ : ∃ b qr, q = b :: qr := by
              cases q with
              | nil => exact absurd (starts_nil _) hdq.2
              | cons b qr => exact ⟨b, qr, rfl⟩
            by_cases hb : b = a
            · subst hb
              simp [lookup, lookupChild_insertChild_self, hc,
                hq qr (disj_cons hdq)]
            · simp [lookup, lookupChild_insertChild_ne cs c1 hb]

/-- Insertion over a just-removed path: the parent chain is still a
directory chain, so insertion succeeds; afterwards the entry holds the
new node and disjoint paths are untouched. -/
theorem insertAt_after_removeAt {fs fs1 : Node} {p : FPath}
    (hr : removeAt fs p = some fs1) (v : Node) :
    ∃ fs2, insertAt fs1 p v = some fs2 ∧ lookup fs2 p = some v ∧
      ∀ q, Disj p q → lookup fs2 q = lookup fs1 q := by
  induction p generalizing fs fs1 with
  | nil => simp [removeAt] at hr
  | cons a p ih =>
    cases fs with
    | file c => simp [removeAt] at hr
    | symlink t => simp [removeAt] at hr
    | dir cs =>
      cases p with
      | nil =>
        simp only [removeAt] at hr
        by_cases hc : (lookupChild cs a).isSome
        · simp only [hc, if_true, Option.some.injEq] at hr
          subst hr
          refine ⟨Node.dir (insertChild (removeChild cs a) a v), ?_, ?_, ?_⟩
          · simp [insertAt]
          · simp [lookup, lookupChild_insertChild_self]
          · intro q hdq
            obtain ⟨b, qr, rfl⟩ : ∃ b qr, q = b :: qr := by
              cases q with
              | nil => exact absurd (starts_nil _) hdq.2
              | cons b qr => exact ⟨b, qr, rfl⟩
            have hb : b ≠ a := by
              rintro rfl
              exact hdq.1 ⟨qr, rfl⟩
            simp [lookup, lookupChild_insertChild_ne _ v hb]
        · simp [hc] at hr
      | cons y p' =>
        simp only [removeAt] at hr
        cases hc : lookupChild cs a with
        | none => simp [hc] at hr
        | some c =>
          simp only [hc, Option.map_eq_some'] at hr
          obtain ⟨c1, hr1, rfl⟩ := hr
          obtain ⟨c2, hi, hl2, hq2⟩ := ih hr1
          refine ⟨Node.dir (insertChild (insertChild cs a c1) a c2), ?_, ?_, ?_⟩
          · simp [insertAt, lookupChild_insertChild_self, hi]
          · simp [lookup, lookupChild_insertChild_self, hl2]
          · intro q hdq
            obtain ⟨b, qr, rfl⟩ : ∃ b qr, q = b :: qr := by
              cases q with
              | nil => exact absurd (starts_nil _) hdq.2
              | cons b qr => exact ⟨b, qr, rfl⟩
            by_cases hb : b = a
            · subst hb
              simp [lookup, lookupChild_insertChild_self,
                hq2 qr (disj_cons hdq)]
            · simp [lookup, lookupChild_insertChild_ne _ _ hb]

/-- Insertion at an existing entry's path: the parent chain exists, so
insertion succeeds, overwrites the entry, and leaves disjoint paths
untouched. -/
theorem insertAt_of_lookup {fs : Node} {p : FPath} {e : Node}
    (hl : lookup fs p = some e) (hp : p ≠ []) (v : Node) :
    ∃ fs2, insertAt fs p v = some fs2 ∧ lookup fs2 p = some v ∧
      ∀ q, Disj p q → lookup fs2 q = lookup fs q := by
  induction p generalizing fs e with
  | nil => exact absurd rfl hp
  | cons a p ih =>
    cases fs with
    | file c => simp [lookup] at hl
    | symlink t => simp [lookup] at hl
    | dir cs =>
      simp only [lookup] at hl
      cases hc : lookupChild cs a with
      | none => simp [hc] at hl
      | some c =>
        simp only [hc] at hl
        cases p with
        | nil =>
          refine ⟨Node.dir (insertChild cs a v), ?_, ?_, ?_⟩
          · simp [insertAt]
          · simp [lookup, lookupChild_insertChild_self]
          · intro q hdq
            obtain ⟨b, qr, rfl⟩ : ∃ b qr, q = b :: qr := by
              cases q with
              | nil => exact absurd (starts_nil _) hdq.2
              | cons b qr => exact ⟨b, qr, rfl⟩
            have hb : b ≠ a := by
              rintro rfl
              exact hdq.1 ⟨qr, rfl⟩
            simp [lookup, lookupChild_insertChild_ne _ v hb]
        | cons y p' =>
          obtain ⟨c2, hi, hl2, hq2⟩ := ih hl (by simp)
          refine ⟨Node.dir (insertChild cs a c2), ?_, ?_, ?_⟩
          · simp [insertAt, hc, hi]
          · simp [lookup, lookupChild_insertChild_self, hl2]
          · intro q hdq
            obtain ⟨b, qr, rfl⟩ : ∃ b qr, q = b :: qr := by
              cases q with
              | nil => exact absurd (starts_nil _) hdq.2
              | cons b qr => exact ⟨b, qr, rfl⟩
            by_cases hb : b = a
            · subst hb
              simp [lookup, lookupChild_insertChild_self, hc,
                hq2 qr (disj_cons hdq)]
            · simp [lookup, lookupChild_insertChild_ne _ _ hb]

/-- Removing a child one level below a directory whose listing is known:
the parent's listing loses exactly that binding. -/
theorem removeAt_snoc {fs : Node} {p : FPath} {cs : List (String × Node)}
    {x : String} {t : Node}
    (hl : lookup fs p = some (Node.dir cs)) (hc : lookupChild cs x = some t) :
    ∃ fs1, removeAt fs (p ++ [x]) = some fs1 ∧
      lookup fs1 p = some (Node.dir (removeChild cs x)) ∧
      ∀ q, Disj (p ++ [x]) q → lookup fs1 q = lookup fs q := by
  induction p generalizing fs with
  | nil =>
    simp only [lookup, Option.some.injEq] at hl
    subst hl
    refine ⟨Node.dir (removeChild cs x), ?_, by simp [lookup], ?_⟩
    · simp [removeAt, hc]
    · intro q hdq
      obtain ⟨b, qr, rfl⟩ : ∃ b qr, q = b :: qr := by
        cases q with
        | nil => exact absurd (starts_nil _) hdq.2
        | cons b qr => exact ⟨b, qr, rfl⟩
      have hb : b ≠ x := by
        rintro rfl
        exact hdq.1 ⟨qr, rfl⟩
      simp [lookup, lookupChild_removeChild_ne cs hb]
  | cons a p ih =>
    cases fs with
    | file c => simp [lookup] at hl
    | symlink tg => simp [lookup] at hl
    | dir cs0 =>
      simp only [lookup] at hl
      cases hc0 : lookupChild cs0 a with
      | none => simp [hc0] at hl
      | some c =>
        simp only [hc0] at hl
        obtain ⟨c1, hr1, hl1, hq1⟩ := ih hl
        refine ⟨Node.dir (insertChild cs0 a c1), ?_, ?_, ?_⟩
        · cases p with
          | nil =>
            simp only [List.nil_append] at hr1
            simp [removeAt, hc0, hr1]
          | cons y p' =>
            simp only [List.cons_append] at hr1
            simp [removeAt, hc0, hr1]
        · simp [lookup, lookupChild_insertChild_self, hl1]
        · intro q hdq
          obtain ⟨b, qr, rfl⟩ : ∃ b qr, q = b :: qr := by
            cases q with
            | nil => exact absurd (starts_nil _) hdq.2
            | cons b qr => exact ⟨b, qr, rfl⟩
          by_cases hb : b = a
          · subst hb
            have : Disj (p ++ [x]) qr := disj_cons (by simpa using hdq)
            simp [lookup, lookupChild_insertChild_self, hc0, hq1 qr this]
          · simp [lookup, lookupChild_insertChild_ne _ _ hb]

/-- Inserting a child one level below a directory whose listing is
known: the parent's listing gains exactly that binding. -/
theorem insertAt_snoc {fs : Node} {p : FPath} {cs : List (String × Node)}
    (hl : lookup fs p = some (Node.dir cs)) (x : String) (v : Node) :
    ∃ fs1, insertAt fs (p ++ [x]) v = some fs1 ∧
      lookup fs1 p = some (Node.dir (insertChild cs x v)) ∧
      ∀ q, Disj (p ++ [x]) q → lookup fs1 q = lookup fs q := by
  induction p generalizing fs with
  | nil =>
    simp only [lookup, Option.some.injEq] at hl
    subst hl
    refine ⟨Node.dir (insertChild cs x v), ?_, by simp [lookup], ?_⟩
    · simp [insertAt]
    · intro q hdq
      obtain ⟨b, qr, rfl⟩ : ∃ b qr, q = b :: qr := by
        cases q with
        | nil => exact absurd (starts_nil _) hdq.2
        | cons b qr => exact ⟨b, qr, rfl⟩
      have hb : b ≠ x := by
        rintro rfl
        exact hdq.1 ⟨qr, rfl⟩
      simp [lookup, lookupChild_insertChild_ne _ _ hb]
  | cons a p ih =>
    cases fs with
    | file c => simp [lookup] at hl
    | symlink tg => simp [lookup] at hl
    | dir cs0 =>
      simp only [lookup] at hl
      cases hc0 : lookupChild cs0 a with
      | none => simp [hc0] at hl
      | some c =>
        simp only [hc0] at hl
        obtain ⟨c1, hr1, hl1, hq1⟩ := ih hl
        refine ⟨Node.dir (insertChild cs0 a c1), ?_, ?_, ?_⟩
        · cases p with
          | nil =>
            simp only [List.nil_append] at hr1
            simp [insertAt, hc0, hr1]
          | cons y p' =>
            simp only [List.cons_append] at hr1
            simp [insertAt, hc0, hr1]
        · simp [lookup, lookupChild_insertChild_self, hl1]
        · intro q hdq
          obtain ⟨b, qr, rfl⟩ : ∃ b qr, q = b :: qr := by
            cases q with
            | nil => exact absurd (starts_nil _) hdq.2
            | cons b qr => exact ⟨b, qr, rfl⟩
          by_cases hb : b = a
          · subst hb
            have : Disj (p ++ [x]) qr := disj_cons (by simpa using hdq)
            simp [lookup, lookupChild_insertChild_self, hc0, hq1 qr this]
          · simp [lookup, lookupChild_insertChild_ne _ _ hb]

/-- `create_dir_all` on a missing path yields an empty directory there. -/
theorem createDirAll_lookup {fs fs1 : Node} {p : FPath}
    (hn : lookup fs p = none) (hc : createDirAll fs p = some fs1) :
    lookup fs1 p = some (Node.dir []) := by
  induction p generalizing fs fs1 with
  | nil =>
    cases fs with
    | file c => simp [createDirAll] at hc
    | symlink t => simp [createDirAll] at hc
    | dir cs => simp [lookup] at hn
  | cons a p ih =>
    cases fs with
    | file c => simp [createDirAll] at hc
    | symlink t => simp [createDirAll] at hc
    | dir cs =>
      simp only [lookup] at hn
      simp only [createDirAll] at hc
      cases hl : lookupChild cs a with
      | some c =>
        simp only [hl] at hn hc
        rw [Option.map_eq_some'] at hc
        obtain ⟨c1, hc1, rfl⟩ := hc
        simp [lookup, lookupChild_insertChild_self, ih hn hc1]
      | none =>
        simp only [hl] at hc
        rw [Option.map_eq_some'] at hc
        obtain ⟨c1, hc1, rfl⟩ := hc
        cases p with
        | nil =>
          simp only [createDirAll, Option.some.injEq] at hc1
          subst hc1
          simp [lookup, lookupChild_insertChild_self]
        | cons y p' =>
          have : lookup (Node.dir ([] : List (String × Node))) (y :: p') = none := by
            simp [lookup, lookupChild]
          simp [lookup, lookupChild_insertChild_self, ih this hc1]

/-- `create_dir_all` touches nothing disjoint from the created path. -/
theorem createDirAll_disj {fs fs1 : Node} {p : FPath}
    (hc : createDirAll fs p = some fs1) :
    ∀ q, Disj p q → lookup fs1 q = lookup fs q := by
  induction p generalizing fs fs1 with
  | nil => intro q hq; exact absurd (starts_nil q) hq.1
  | cons a p ih =>
    intro q hq
    cases fs with
    | file c => simp [createDirAll] at hc
    | symlink t => simp [createDirAll] at hc
    | dir cs =>
      obtain ⟨b, qr, rfl⟩ : ∃ b qr, q = b :: qr := by
        cases q with
        | nil => exact absurd (starts_nil _) hq.2
        | cons b qr => exact ⟨b, qr, rfl⟩
      simp only [createDirAll] at hc
      cases hl : lookupChild cs a with
      | some c =>
        simp only [hl] at hc
        rw [Option.map_eq_some'] at hc
        obtain ⟨c1, hc1, rfl⟩ := hc
        by_cases hb : b = a
        · subst hb
          simp [lookup, lookupChild_insertChild_self, hl,
            ih hc1 qr (disj_cons hq)]
        · simp [lookup, lookupChild_insertChild_ne _ _ hb]
      | none =>
        simp only [hl] at hc
        rw [Option.map_eq_some'] at hc
        obtain ⟨c1, hc1, rfl⟩ := hc
        by_cases hb : b = a
        · subst hb
          have hemp : lookup (Node.dir ([] : List (String × Node))) qr = none := by
            cases qr with
            | nil =>
              exfalso
              exact hq.2 ((starts_cons_iff b b [] p).mpr ⟨rfl, starts_nil p⟩)
            | cons z zr => simp [lookup, lookupChild]
          simp [lookup, lookupChild_insertChild_self, hl,
            ih hc1 qr (disj_cons hq), hemp]
        · simp [lookup, lookupChild_insertChild_ne _ _ hb]

/-- After removing a directory, `create_dir_all` on the same path
succeeds and recreates it empty, leaving disjoint paths untouched. -/
theorem createDirAll_after_removeAt {fs fs1 : Node} {p : FPath}
    (hr : removeAt fs p = some fs1) :
    ∃ fs2, createDirAll fs1 p = some fs2 ∧
      lookup fs2 p = some (Node.dir []) ∧
      ∀ q, Disj p q → lookup fs2 q = lookup fs1 q := by
  induction p generalizing fs fs1 with
  | nil => simp [removeAt] at hr
  | cons a p ih =>
    cases fs with
    | file c => simp [removeAt] at hr
    | symlink t => simp [removeAt] at hr
    | dir cs =>
      cases p with
      | nil =>
        simp only [removeAt] at hr
        by_cases hc : (lookupChild cs a).isSome
        · simp only [hc, if_true, Option.some.injEq] at hr
          subst hr
          refine ⟨Node.dir (insertChild (removeChild cs a) a (Node.dir [])), ?_, ?_, ?_⟩
          · simp [createDirAll, lookupChild_removeChild_self]
          · simp [lookup, lookupChild_insertChild_self]
          · intro q hdq
            obtain ⟨b, qr, rfl⟩ : ∃ b qr, q = b :: qr := by
              cases q with
              | nil => exact absurd (starts_nil _) hdq.2
              | cons b qr => exact ⟨b, qr, rfl⟩
            have hb : b ≠ a := by
              rintro rfl
              exact hdq.1 ⟨qr, rfl⟩
            simp [lookup, lookupChild_insertChild_ne _ _ hb]
        · simp [hc] at hr
      | cons y p' =>
        simp only [removeAt] at hr
        cases hc : lookupChild cs a with
        | none => simp [hc] at hr
        | some c =>
          simp only [hc] at hr
          rw [Option.map_eq_some'] at hr
          obtain ⟨c1, hr1, rfl⟩ := hr
          obtain ⟨c2, hc2, hl2, hq2⟩ := ih hr1
          refine ⟨Node.dir (insertChild (insertChild cs a c1) a c2), ?_, ?_, ?_⟩
          · simp [createDirAll, lookupChild_insertChild_self, hc2]
          · simp [lookup, lookupChild_insertChild_self, hl2]
          · intro q hdq
            obtain ⟨b, qr, rfl⟩ : ∃ b qr, q = b :: qr := by
              cases q with
              | nil => exact absurd (starts_nil _) hdq.2
              | cons b qr => exact ⟨b, qr, rfl⟩
            by_cases hb : b = a
            · subst hb
              simp [lookup, lookupChild_insertChild_self,
                hq2 qr (disj_cons hdq)]
            · simp [lookup, lookupChild_insertChild_ne _ _ hb]

/-! ## Resolution helpers -/

theorem resolveLookup_dir {fs : Node} {p : FPath} {cs : List (String × Node)}
    (h : lookup fs p = some (Node.dir cs)) (n : Nat) :
    resolveLookup fs n p = some (Node.dir cs) := by
  cases n <;> simp [resolveLookup, h]

theorem resolveLookup_file {fs : Node} {p : FPath} {c : String}
    (h : lookup fs p = some (Node.file c)) (n : Nat) :
    resolveLookup fs n p = some (Node.file c) := by
  cases n <;> simp [resolveLookup, h]

theorem resolveLookup_none {fs : Node} {p : FPath}
    (h : lookup fs p = none) (n : Nat) : resolveLookup fs n p = none := by
  cases n <;> simp [resolveLookup, h]

theorem pathExistsFs_dir {fs : Node} {p : FPath} {cs : List (String × Node)}
    (h : lookup fs p = some (Node.dir cs)) : pathExistsFs fs p = true := by
  simp [pathExistsFs, resolveLookup_dir h]

theorem pathExistsFs_file {fs : Node} {p : FPath} {c : String}
    (h : lookup fs p = some (Node.file c)) : pathExistsFs fs p = true := by
  simp [pathExistsFs, resolveLookup_file h]

theorem pathExistsFs_none {fs : Node} {p : FPath}
    (h : lookup fs p = none) : pathExistsFs fs p = false := by
  simp [pathExistsFs, resolveLookup_none h]

theorem isFileFs_dir {fs : Node} {p : FPath} {cs : List (String × Node)}
    (h : lookup fs p = some (Node.dir cs)) : isFileFs fs p = false := by
  simp [isFileFs, resolveLookup_dir h]

theorem isFileFs_file {fs : Node} {p : FPath} {c : String}
    (h : lookup fs p = some (Node.file c)) : isFileFs fs p = true := by
  simp [isFileFs, resolveLookup_file h]

theorem isDirFs_dir {fs : Node} {p : FPath} {cs : List (String × Node)}
    (h : lookup fs p = some (Node.dir cs)) : isDirFs fs p = true := by
  simp [isDirFs, resolveLookup_dir h]

theorem isDirFs_file {fs : Node} {p : FPath} {c : String}
    (h : lookup fs p = some (Node.file c)) : isDirFs fs p = false := by
  simp [isDirFs, resolveLookup_file h]

/-! ## Claim C10: the unguarded progress division -/

/-- C10: the progress callbacks compute `copied_bytes * 100 / total_bytes`
with no guard on the divisor, so the computation is total only when
`total_bytes` is nonzero; every progress event with `total_bytes = 0`
reaches the division's panic branch. -/
theorem C10_progress_division (copied total : Nat) :
    progressPercent copied 0 = none ∧
    (total ≠ 0 → ∃ n, progressPercent copied total = some n) := by
  constructor
  · simp [progressPercent]
  · intro h
    exact ⟨copied * 100 % 2 ^ 64 / total, by simp [progressPercent, h]⟩

/-- Witness for C10 at `copied = 7`: divisor `0` panics, divisor `3` is
defined. -/
theorem C10_witness :
    progressPercent 7 0 = none ∧ ∃ n, progressPercent 7 3 = some n :=
  ⟨(C10_progress_division 7 3).1, (C10_progress_division 7 3).2 (by decide)⟩

/-! ## Claim C1: linking a path onto itself -/

/-- C1 (code-bug evidence): with `source = destination = /tmp/real.txt`
an existing file and `force = true`, `make_symlink` returns success and
the entry at that path has become a dangling self-referential symlink —
the original file content is destroyed, which the claim (and spec §8)
forbids. -/
theorem C1_self_link_force_destroys_source :
    (make_symlink fsPrims ["tmp", "real.txt"] ["tmp", "real.txt"] true false
        (Node.dir [("tmp", Node.dir [("real.txt", Node.file "hello")])])).2.2 = RRes.ok ∧
    lookup (make_symlink fsPrims ["tmp", "real.txt"] ["tmp", "real.txt"] true false
        (Node.dir [("tmp", Node.dir [("real.txt", Node.file "hello")])])).1
      ["tmp", "real.txt"] = some (Node.symlink ["tmp", "real.txt"]) :=
  ⟨rfl, rfl⟩

/-! ## Claim C2: forced cleanup failure is a panic, not an error value -/

/-- C2 (amended): with `force = true` and an existing destination,
`rm_rf` is invoked unconditionally on the destination before link
creation; if the removal fails the operation terminates by a panic (the
`unwrap` on line 289), not by returning an error value, and if it
succeeds the link-creation stage runs on the cleaned state. -/
theorem C2_force_cleanup_panics {σ : Type} (P : Prims σ) (s : σ)
    (src dst : FPath) (uj : Bool)
    (h1 : P.pathExists s src = true)
    (h2 : P.tryExists s dst = Except.ok true) :
    (∀ s1 e, rm_rf P dst s = (s1, Except.error e) →
      make_symlink P src dst true uj s = (s1, [], RRes.panic)) ∧
    (∀ s1, rm_rf P dst s = (s1, Except.ok ()) →
      make_symlink P src dst true uj s = ms_create P src dst true uj s1) := by
  constructor
  · intro s1 e hrm
    simp [make_symlink, h1, h2, ms_clear, hrm]
  · intro s1 hrm
    simp [make_symlink, h1, h2, ms_clear, hrm]

/-- Witness for C2 in the environment `C2Prims`. -/
theorem C2_witness :
    C2Prims.pathExists () ["s"] = true ∧
    C2Prims.tryExists () ["d"] = Except.ok true ∧
    ((∀ s1 e, rm_rf C2Prims ["d"] () = (s1, Except.error e) →
        make_symlink C2Prims ["s"] ["d"] true false () = (s1, [], RRes.panic)) ∧
     (∀ s1, rm_rf C2Prims ["d"] () = (s1, Except.ok ()) →
        make_symlink C2Prims ["s"] ["d"] true false () =
          ms_create C2Prims ["s"] ["d"] true false s1)) :=
  ⟨rfl, rfl, C2_force_cleanup_panics C2Prims () ["s"] ["d"] false rfl rfl⟩

/-- C2 counterexample to the claim as stated: when the forced removal of
the destination fails, the link call ends in a panic — it does not return
any error value. -/
theorem C2_counterexample :
    make_symlink C2Prims ["s"] ["d"] true false () = ((), [], RRes.panic) ∧
    ∀ m : String, RRes.panic ≠ RRes.err m :=
  ⟨rfl, fun _ h => RRes.noConfusion h⟩

/-! ## Claim C4: the forced retry and its error context -/

/-- C4 (amended): when the platform link primitive fails and `force` is
true, the error is logged, `rm_rf` is re-invoked on the destination, and
link creation is retried exactly once; a second failure is fatal and the
returned error carries the retry-attempt error context only (the
first-attempt error is only logged).  Without `force`, the first failure
is immediately fatal. -/
theorem C4_retry_error_context {σ : Type} (P : Prims σ) (s s1 : σ)
    (src dst : FPath) (uj : Bool) (e1 e2 : String)
    (h1 : P.pathExists s src = true)
    (h2 : P.tryExists s dst = Except.ok false)
    (h3 : P.makeSymlinkPrim s src dst uj = Except.error e1)
    (h4 : rm_rf P dst s = (s1, Except.ok ()))
    (h5 : P.makeSymlinkPrim s1 src dst uj = Except.error e2) :
    make_symlink P src dst false uj s = (s, [], RRes.err (linkFailMsg dst e1)) ∧
    make_symlink P src dst true uj s =
      (s1, ["Error: " ++ e1, tryRemoveMsg dst, "OK"],
        RRes.err (linkFailMsg dst e2)) := by
  constructor
  · simp [make_symlink, h1, h2, ms_clear, ms_create, h3]
  · simp [make_symlink, h1, h2, ms_clear, ms_create, h3, h4, h5]

/-- Witness for C4 in the environment `C4Prims`. -/
theorem C4_witness :
    C4Prims.pathExists 0 ["s"] = true ∧
    C4Prims.tryExists 0 ["d"] = Except.ok false ∧
    C4Prims.makeSymlinkPrim 0 ["s"] ["d"] false = Except.error "link error one" ∧
    rm_rf C4Prims ["d"] 0 = (1, Except.ok ()) ∧
    C4Prims.makeSymlinkPrim 1 ["s"] ["d"] false = Except.error "link error two" ∧
    (make_symlink C4Prims ["s"] ["d"] false false 0 =
        (0, [], RRes.err (linkFailMsg ["d"] "link error one")) ∧
     make_symlink C4Prims ["s"] ["d"] true false 0 =
        (1, ["Error: " ++ "link error one", tryRemoveMsg ["d"], "OK"],
          RRes.err (linkFailMsg ["d"] "link error two"))) :=
  ⟨rfl, rfl, rfl, rfl, rfl,
    C4_retry_error_context C4Prims 0 1 ["s"] ["d"] false
      "link error one" "link error two" rfl rfl rfl rfl rfl⟩

/-- C4 counterexample to the claim as stated: after two link failures
the returned error message carries the retry error but does not contain
the original first-attempt error text. -/
theorem C4_counterexample :
    make_symlink C4Prims ["s"] ["d"] true false 0 =
      (1, ["Error: link error one", tryRemoveMsg ["d"], "OK"],
        RRes.err (linkFailMsg ["d"] "link error two")) ∧
    strContains (linkFailMsg ["d"] "link error two") "link error one" = false := by
  constructor
  · rfl
  · decide

/-! ## Claim C9: restore-mapping failures panic -/

/-- C9 (amended): `restore_mapping` hits an `unwrap` both when reading
the file fails and when its content does not parse as a mapping file; in
both cases the process panics instead of returning a codec error value. -/
theorem C9_restore_read_panics (fs : Node) (e s : String)
    (h : readMappingFile s = none) :
    restore_mapping (Except.error e) fs = (fs, RRes.panic) ∧
    restore_mapping (Except.ok s) fs = (fs, RRes.panic) := by
  constructor
  · rfl
  · simp [restore_mapping, h]

/-- Witness for C9 on the malformed content `not json`. -/
theorem C9_witness :
    readMappingFile "not json" = none ∧
    (restore_mapping (Except.error "(io error)") (Node.dir []) =
        (Node.dir [], RRes.panic) ∧
     restore_mapping (Except.ok "not json") (Node.dir []) =
        (Node.dir [], RRes.panic)) :=
  ⟨rfl, C9_restore_read_panics (Node.dir []) "(io error)" "not json" rfl⟩

/-- C9 counterexample to the claim as stated: on malformed content the
restore terminates by panic; no error value is returned. -/
theorem C9_counterexample :
    restore_mapping (Except.ok "not json") (Node.dir []) =
      (Node.dir [], RRes.panic) ∧
    ∀ m : String, RRes.panic ≠ RRes.err m :=
  ⟨rfl, fun _ h => RRes.noConfusion h⟩

/-! ## Claim C3: destination policy without force -/

/-- C3: with `force = false` and an existing destination, the operation
fails with the `DestinationExists` error unless the destination is an
empty directory; in that case the single narrow `remove_dir` probe
removes it and link creation proceeds (and succeeds on the deterministic
filesystem).  A file or a non-empty directory always blocks the
operation and leaves the filesystem unchanged. -/
theorem C3_noforce_destination_policy (fs : Node) (src dst : FPath) (uj : Bool)
    (h1 : pathExistsFs fs src = true) (h2 : dst ≠ []) :
    (lookup fs dst = some (Node.dir []) →
      ∃ fs1 fs2, removeAt fs dst = some fs1 ∧
        insertAt fs1 dst (Node.symlink src) = some fs2 ∧
        make_symlink fsPrims src dst false uj fs =
          (fs2, [symlinkedMsg src dst], RRes.ok) ∧
        lookup fs2 dst = some (Node.symlink src)) ∧
    (∀ c, lookup fs dst = some (Node.file c) →
      make_symlink fsPrims src dst false uj fs =
        (fs, [], RRes.err (destExistsMsg dst))) ∧
    (∀ n x cs, lookup fs dst = some (Node.dir ((n, x) :: cs)) →
      make_symlink fsPrims src dst false uj fs =
        (fs, [], RRes.err (destExistsMsg dst))) := by
  refine ⟨?_, ?_, ?_⟩
  · intro hdst
    obtain ⟨fs1, hr, hn, _⟩ := removeAt_spec hdst h2
    obtain ⟨fs2, hi, hl2, _⟩ := insertAt_after_removeAt hr (Node.symlink src)
    refine ⟨fs1, fs2, hr, hi, ?_, hl2⟩
    simp [make_symlink, fsPrims, h1, pathExistsFs_dir hdst, ms_clear, hdst,
      hr, ms_create, hn, hi]
  · intro c hdst
    simp [make_symlink, fsPrims, h1, pathExistsFs_file hdst, ms_clear, hdst]
  · intro n x cs hdst
    simp [make_symlink, fsPrims, h1, pathExistsFs_dir hdst, ms_clear, hdst]

/-- Witness for C3: source file `/a`, destination empty directory `/b`. -/
theorem C3_witness :
    pathExistsFs (Node.dir [("a", Node.file "x"), ("b", Node.dir [])]) ["a"] = true ∧
    (["b"] : FPath) ≠ [] ∧
    ((lookup (Node.dir [("a", Node.file "x"), ("b", Node.dir [])]) ["b"] =
        some (Node.dir []) →
      ∃ fs1 fs2,
        removeAt (Node.dir [("a", Node.file "x"), ("b", Node.dir [])]) ["b"] = some fs1 ∧
        insertAt fs1 ["b"] (Node.symlink ["a"]) = some fs2 ∧
        make_symlink fsPrims ["a"] ["b"] false false
            (Node.dir [("a", Node.file "x"), ("b", Node.dir [])]) =
          (fs2, [symlinkedMsg ["a"] ["b"]], RRes.ok) ∧
        lookup fs2 ["b"] = some (Node.symlink ["a"])) ∧
     (∀ c, lookup (Node.dir [("a", Node.file "x"), ("b", Node.dir [])]) ["b"] =
        some (Node.file c) →
      make_symlink fsPrims ["a"] ["b"] false false
          (Node.dir [("a", Node.file "x"), ("b", Node.dir [])]) =
        (Node.dir [("a", Node.file "x"), ("b", Node.dir [])], [],
          RRes.err (destExistsMsg ["b"]))) ∧
     (∀ n x cs, lookup (Node.dir [("a", Node.file "x"), ("b", Node.dir [])]) ["b"] =
        some (Node.dir ((n, x) :: cs)) →
      make_symlink fsPrims ["a"] ["b"] false false
          (Node.dir [("a", Node.file "x"), ("b", Node.dir [])]) =
        (Node.dir [("a", Node.file "x"), ("b", Node.dir [])], [],
          RRes.err (destExistsMsg ["b"])))) :=
  ⟨rfl, fun h => List.noConfusion h,
    C3_noforce_destination_policy
      (Node.dir [("a", Node.file "x"), ("b", Node.dir [])]) ["a"] ["b"] false
      rfl (fun h => List.noConfusion h)⟩

/-! ## Claim C6: moving a directory onto a non-empty destination -/

/-- C6: when the destination directory of a directory move exists and is
non-empty, the move fails with the `DestinationNotEmpty` error if
`force` is false; with `force` the destination subtree is removed and
recreated empty, and only then are the children moved (the move
continues as the child loop run on the state whose destination is an
empty directory). -/
theorem C6_move_nonempty_destination (fs : Node) (src dst : FPath)
    (scs : List (String × Node)) (d : String × Node) (ds : List (String × Node))
    (h1 : lookup fs src = some (Node.dir scs))
    (h2 : lookup fs dst = some (Node.dir (d :: ds)))
    (h3 : Disj src dst) :
    move_file_or_directory src dst false fs = (fs, RRes.err (notEmptyMsg dst)) ∧
    ∃ fs1 fs2, removeAt fs dst = some fs1 ∧ createDirAll fs1 dst = some fs2 ∧
      lookup fs2 dst = some (Node.dir []) ∧
      move_file_or_directory src dst true fs =
        moveChildren src dst (keys scs) fs2 := by
  have hnf : isFileFs fs src = false := isFileFs_dir h1
  have hde : pathExistsFs fs dst = true := pathExistsFs_dir h2
  have hdn : dst ≠ [] := (disj_ne_nil h3).2
  constructor
  · simp [move_file_or_directory, hnf, hde, readDirNames, h2, keys]
  · obtain ⟨fs1, hr, _, hq1⟩ := removeAt_spec h2 hdn
    obtain ⟨fs2, hcd, hl2, hq2⟩ := createDirAll_after_removeAt hr
    have hsrc2 : lookup fs2 src = some (Node.dir scs) := by
      rw [hq2 src (disj_symm h3), hq1 src (disj_symm h3), h1]
    refine ⟨fs1, fs2, hr, hcd, hl2, ?_⟩
    simp [move_file_or_directory, hnf, hde, readDirNames, h2, keys,
      removeDirAllFs, hr, hcd, mv_children_start, hsrc2]

/-- Witness for C6: `/A` holds a file, `/B` is non-empty. -/
theorem C6_witness :
    lookup (Node.dir [("A", Node.dir [("f", Node.file "1")]),
        ("B", Node.dir [("old", Node.file "0")])]) ["A"] =
      some (Node.dir [("f", Node.file "1")]) ∧
    lookup (Node.dir [("A", Node.dir [("f", Node.file "1")]),
        ("B", Node.dir [("old", Node.file "0")])]) ["B"] =
      some (Node.dir [("old", Node.file "0")]) ∧
    Disj ["A"] ["B"] ∧
    (move_file_or_directory ["A"] ["B"] false
        (Node.dir [("A", Node.dir [("f", Node.file "1")]),
          ("B", Node.dir [("old", Node.file "0")])]) =
      (Node.dir [("A", Node.dir [("f", Node.file "1")]),
        ("B", Node.dir [("old", Node.file "0")])],
        RRes.err (notEmptyMsg ["B"])) ∧
     ∃ fs1 fs2,
      removeAt (Node.dir [("A", Node.dir [("f", Node.file "1")]),
          ("B", Node.dir [("old", Node.file "0")])]) ["B"] = some fs1 ∧
      createDirAll fs1 ["B"] = some fs2 ∧
      lookup fs2 ["B"] = some (Node.dir []) ∧
      move_file_or_directory ["A"] ["B"] true
          (Node.dir [("A", Node.dir [("f", Node.file "1")]),
            ("B", Node.dir [("old", Node.file "0")])]) =
        moveChildren ["A"] ["B"] (keys [("f", Node.file "1")]) fs2) :=
  ⟨rfl, rfl, by decide,
    C6_move_nonempty_destination _ ["A"] ["B"] [("f", Node.file "1")]
      ("old", Node.file "0") [] rfl rfl (by decide)⟩

/-! ## Claim C8: replay order and the first failure -/

/-- Replay distributes over concatenation: the tail runs only if every
record of the initial segment succeeded. -/
theorem replay_append (l1 l2 : List Mapping) (fs : Node) :
    replayMappings (l1 ++ l2) fs =
      (match replayMappings l1 fs with
       | (fs1, RRes.ok) => replayMappings l2 fs1
       | (fs1, r) => (fs1, r)) := by
  induction l1 generalizing fs with
  | nil => simp [replayMappings]
  | cons m rest ih =>
    simp only [List.cons_append, replayMappings]
    rcases hms : make_symlink fsPrims (pathComponents m.src)
        (pathComponents m.dst) m.force m.junction fs with ⟨fs1, log, r⟩
    cases r with
    | ok => simp [ih]
    | err e => simp
    | panic => simp

/-- C8: replay calls the link creator once per record in file order; the
first record that fails (or panics) ends the whole replay with exactly
the state reached at that point — records after it are never attempted
and the effects of the records before it are kept. -/
theorem C8_replay_first_failure_aborts (l1 l2 : List Mapping) (r : Mapping)
    (fs fs1 fs2 : Node) (log : List String) (res : RRes)
    (h1 : replayMappings l1 fs = (fs1, RRes.ok))
    (h2 : make_symlink fsPrims (pathComponents r.src) (pathComponents r.dst)
        r.force r.junction fs1 = (fs2, log, res))
    (h3 : res ≠ RRes.ok) :
    replayMappings (l1 ++ r :: l2) fs = (fs2, res) := by
  rw [replay_append, h1]
  simp only [replayMappings, h2]
  cases res with
  | ok => exact absurd rfl h3
  | err e => rfl
  | panic => rfl

/-- Witness for C8: the first record links `/a` to `/b`, the second
fails (missing source), the third is never attempted. -/
theorem C8_witness :
    replayMappings [{ src := "/a", dst := "/b", force := false, junction := false }]
        (Node.dir [("a", Node.file "x")]) =
      (Node.dir [("a", Node.file "x"), ("b", Node.symlink ["a"])], RRes.ok) ∧
    make_symlink fsPrims
        (pathComponents "/nope") (pathComponents "/c") false false
        (Node.dir [("a", Node.file "x"), ("b", Node.symlink ["a"])]) =
      (Node.dir [("a", Node.file "x"), ("b", Node.symlink ["a"])], [],
        RRes.err (srcMissingMsg ["nope"])) ∧
    replayMappings
        ([{ src := "/a", dst := "/b", force := false, junction := false }] ++
          { src := "/nope", dst := "/c", force := false, junction := false } ::
          [{ src := "/a", dst := "/d", force := false, junction := false }])
        (Node.dir [("a", Node.file "x")]) =
      (Node.dir [("a", Node.file "x"), ("b", Node.symlink ["a"])],
        RRes.err (srcMissingMsg ["nope"])) :=
  ⟨rfl, rfl,
    C8_replay_first_failure_aborts
      [{ src := "/a", dst := "/b", force := false, junction := false }]
      [{ src := "/a", dst := "/d", force := false, junction := false }]
      { src := "/nope", dst := "/c", force := false, junction := false }
      (Node.dir [("a", Node.file "x")])
      (Node.dir [("a", Node.file "x"), ("b", Node.symlink ["a"])])
      (Node.dir [("a", Node.file "x"), ("b", Node.symlink ["a"])])
      [] (RRes.err (srcMissingMsg ["nope"]))
      rfl rfl (fun h => RRes.noConfusion h)⟩

/-! ## Claim C5: the move-and-link flow -/

theorem noLinkChildren_cons {n : String} {t : Node} {rest : List (String × Node)}
    (h : noLinkChildren ((n, t) :: rest) = true) :
    (∀ tg, t ≠ Node.symlink tg) ∧ noLinkChildren rest = true := by
  cases t with
  | file c => exact ⟨fun tg h' => Node.noConfusion h', h⟩
  | symlink tg => simp [noLinkChildren] at h
  | dir cs => exact ⟨fun tg h' => Node.noConfusion h', h⟩

/-- The child loop moves every child of `A` under `B`, in directory
order: afterwards `A` is empty and `B`'s listing has gained exactly
`A`'s original children, in order. -/
theorem moveChildren_spec (A B : FPath) (hdisj : Disj A B) :
    ∀ (cs done : List (String × Node)) (fs : Node),
      lookup fs A = some (Node.dir cs) →
      lookup fs B = some (Node.dir done) →
      nodupKeys cs = true →
      (∀ m t', lookupChild cs m = some t' → lookupChild done m = none) →
      noLinkChildren cs = true →
      ∃ fs', moveChildren A B (keys cs) fs = (fs', RRes.ok) ∧
        lookup fs' A = some (Node.dir []) ∧
        lookup fs' B = some (Node.dir (done ++ cs)) := by
  intro cs
  induction cs with
  | nil =>
    intro done fs hA hB _ _ _
    exact ⟨fs, by simp [keys, moveChildren], hA, by simpa using hB⟩
  | cons c rest ih =>
    obtain ⟨n, t⟩ := c
    intro done fs hA hB hnd hfresh hnl
    obtain ⟨hrestn, hndr⟩ := nodupKeys_cons hnd
    obtain ⟨htl, hnlr⟩ := noLinkChildren_cons hnl
    have hselft : lookupChild ((n, t) :: rest) n = some t := by
      simp [lookupChild]
    have hp : lookup fs (A ++ [n]) = some t := by
      rw [lookup_snoc, hA]
      simpa using hselft
    have hBn : lookup fs (B ++ [n]) = none := by
      rw [lookup_snoc, hB]
      simpa using hfresh n t hselft
    obtain ⟨fs1, hins, hB1, hq1⟩ := insertAt_snoc hB n t
    have hA1 : lookup fs1 A = some (Node.dir ((n, t) :: rest)) := by
      rw [hq1 A (disj_snoc_left n (disj_symm hdisj)), hA]
    obtain ⟨fs2, hrm, hA2, hq2⟩ := removeAt_snoc hA1 hselft
    have hA2' : lookup fs2 A = some (Node.dir rest) := by
      rw [hA2]
      simp [removeChild, removeChild_of_fresh hrestn]
    have hB2 : lookup fs2 B = some (Node.dir (done ++ [(n, t)])) := by
      rw [hq2 B (disj_snoc_left n hdisj), hB1,
        insertChild_of_fresh (hfresh n t hselft) t]
    have hmv : fsMoveEntry fs (A ++ [n]) (B ++ [n]) = some fs2 := by
      simp [fsMoveEntry, hp, hBn, hins, hrm]
    have hfresh2 : ∀ m t', lookupChild rest m = some t' →
        lookupChild (done ++ [(n, t)]) m = none := by
      intro m t' hm
      have hmn : m ≠ n := by
        rintro rfl
        rw [hrestn] at hm
        exact Option.noConfusion hm
      have hcs : lookupChild ((n, t) :: rest) m = some t' := by
        simp [lookupChild, Ne.symm hmn, hm]
      rw [lookupChild_append_of_none (hfresh m t' hcs)]
      simp [lookupChild, Ne.symm hmn]
    obtain ⟨fs', hloop, hA', hB'⟩ := ih (done ++ [(n, t)]) fs2 hA2' hB2 hndr hfresh2 hnlr
    refine ⟨fs', ?_, hA', by simpa using hB'⟩
    have hstep : moveChildren A B (keys ((n, t) :: rest)) fs =
        moveChildren A B (keys rest) fs2 := by
      cases t with
      | file cnt =>
        have : isDirFs fs (A ++ [n]) = false := isDirFs_file hp
        simp [keys, moveChildren, this, hmv]
      | symlink tg => exact absurd rfl (htl tg)
      | dir tcs =>
        have : isDirFs fs (A ++ [n]) = true := isDirFs_dir hp
        simp [keys, moveChildren, this, hmv]
    rw [hstep]
    exact hloop

/-- C5: for a directory `A` (no duplicate child names, no symbolic-link
children) and a creatable destination `B` disjoint from `A` that does not
yet exist, the move-and-link flow succeeds for either value of `force`:
afterwards `B` holds `A`'s original listing and `A` is a symlink to `B`. -/
theorem C5_move_and_link (fs fsB : Node) (A B : FPath)
    (cs : List (String × Node)) (force uj : Bool)
    (hA : lookup fs A = some (Node.dir cs))
    (hB : lookup fs B = none)
    (hCD : createDirAll fs B = some fsB)
    (hdisj : Disj A B)
    (hnd : nodupKeys cs = true)
    (hnl : noLinkChildren cs = true) :
    ∃ fs', move_and_link A B force uj fs = (fs', RRes.ok) ∧
      lookup fs' B = some (Node.dir cs) ∧
      lookup fs' A = some (Node.symlink B) := by
  have hAne : A ≠ [] := (disj_ne_nil hdisj).1
  have hnf : isFileFs fs A = false := isFileFs_dir hA
  have hBnx : pathExistsFs fs B = false := pathExistsFs_none hB
  have hB2 : lookup fsB B = some (Node.dir []) := createDirAll_lookup hB hCD
  have hA2 : lookup fsB A = some (Node.dir cs) := by
    rw [createDirAll_disj hCD A (disj_symm hdisj), hA]
  obtain ⟨fs1, hloop, hA3, hB3'⟩ :=
    moveChildren_spec A B hdisj cs [] fsB hA2 hB2 hnd
      (fun m t' _ => rfl) hnl
  have hB3 : lookup fs1 B = some (Node.dir cs) := by simpa using hB3'
  have hmove : move_file_or_directory A B force fs = (fs1, RRes.ok) := by
    simp [move_file_or_directory, hnf, hBnx, hCD, mv_children_start,
      readDirNames, hA2, hloop]
  obtain ⟨fs2, hrm, hn2, hq2⟩ := removeAt_spec hA3 hAne
  obtain ⟨fs3, hins, hl3, hq3⟩ := insertAt_after_removeAt hrm (Node.symlink B)
  have hclear : ms_clear fsPrims B A force uj fs1 true =
      ms_create fsPrims B A force uj fs2 := by
    cases force
    · simp [ms_clear, fsPrims, hA3, hrm]
    · simp [ms_clear, rm_rf, fsPrims, isFileFs_dir hA3, removeDirAllFs,
        hA3, hrm]
  have hex1 : fsPrims.pathExists fs1 B = true := pathExistsFs_dir hB3
  have hex2 : fsPrims.tryExists fs1 A = Except.ok true := by
    show Except.ok (pathExistsFs fs1 A) = Except.ok true
    rw [pathExistsFs_dir hA3]
  have hprim : fsPrims.makeSymlinkPrim fs2 B A uj = Except.ok fs3 := by
    show (if (lookup fs2 A).isSome then _ else _) = _
    simp [hn2, hins]
  have hms : make_symlink fsPrims B A force uj fs1 =
      (fs3, [symlinkedMsg B A], RRes.ok) := by
    simp [make_symlink, hex1, hex2, hclear, ms_create, hprim]
  refine ⟨fs3, ?_, ?_, hl3⟩
  · simp [move_and_link, hmove, hms]
  · rw [hq3 B (disj_symm (disj_symm hdisj)), hq2 B hdisj, hB3]

/-- Witness for C5: `/A` holds a file and a nested directory; the flow
moves them to `/B` and links `/A` to `/B` (here with `force = true`). -/
theorem C5_witness :
    lookup (Node.dir [("A", Node.dir [("f", Node.file "1"),
        ("sub", Node.dir [("g", Node.file "2")])])]) ["A"] =
      some (Node.dir [("f", Node.file "1"),
        ("sub", Node.dir [("g", Node.file "2")])]) ∧
    lookup (Node.dir [("A", Node.dir [("f", Node.file "1"),
        ("sub", Node.dir [("g", Node.file "2")])])]) ["B"] = none ∧
    createDirAll (Node.dir [("A", Node.dir [("f", Node.file "1"),
        ("sub", Node.dir [("g", Node.file "2")])])]) ["B"] =
      some (Node.dir [("A", Node.dir [("f", Node.file "1"),
        ("sub", Node.dir [("g", Node.file "2")])]), ("B", Node.dir [])]) ∧
    Disj ["A"] ["B"] ∧
    nodupKeys [("f", Node.file "1"), ("sub", Node.dir [("g", Node.file "2")])] = true ∧
    noLinkChildren [("f", Node.file "1"),
      ("sub", Node.dir [("g", Node.file "2")])] = true ∧
    ∃ fs', move_and_link ["A"] ["B"] true false
        (Node.dir [("A", Node.dir [("f", Node.file "1"),
          ("sub", Node.dir [("g", Node.file "2")])])]) = (fs', RRes.ok) ∧
      lookup fs' ["B"] = some (Node.dir [("f", Node.file "1"),
        ("sub", Node.dir [("g", Node.file "2")])]) ∧
      lookup fs' ["A"] = some (Node.symlink ["B"]) :=
  ⟨rfl, rfl, rfl, by decide, rfl, rfl,
    C5_move_and_link
      (Node.dir [("A", Node.dir [("f", Node.file "1"),
        ("sub", Node.dir [("g", Node.file "2")])])])
      (Node.dir [("A", Node.dir [("f", Node.file "1"),
        ("sub", Node.dir [("g", Node.file "2")])]), ("B", Node.dir [])])
      ["A"] ["B"]
      [("f", Node.file "1"), ("sub", Node.dir [("g", Node.file "2")])]
      true false rfl rfl rfl (by decide) rfl rfl⟩

/-! ## Claim C7: the serialization round-trip

The proof follows the usual printer/parser pattern: every rendered
fragment is parsed back, with an arbitrary suffix left intact. -/

theorem hexDigitVal_hexDigit {n : Nat} (h : n < 16) :
    hexDigitVal (hexDigit n) = some n := by
  have hall : ∀ m : Fin 16, hexDigitVal (hexDigit m.val) = some m.val := by decide
  exact hall ⟨n, h⟩

theorem psb_close (l : List Char) : parseStringBody ('"' :: l) = some ([], l) := by rw [parseStringBody.eq_def]; simp

theorem psb_quote (l : List Char) :
    parseStringBody ('\\' :: '"' :: l) =
      (parseStringBody l).map (fun x => ('"' :: x.1, x.2)) := by rw [parseStringBody.eq_def]; simp

theorem psb_backslash (l : List Char) :
    parseStringBody ('\\' :: '\\' :: l) =
      (parseStringBody l).map (fun x => ('\\' :: x.1, x.2)) := by rw [parseStringBody.eq_def]; simp

theorem psb_newline (l : List Char) :
    parseStringBody ('\\' :: 'n' :: l) =
      (parseStringBody l).map (fun x => ('\n' :: x.1, x.2)) := by rw [parseStringBody.eq_def]; simp

theorem psb_return (l : List Char) :
    parseStringBody ('\\' :: 'r' :: l) =
      (parseStringBody l).map (fun x => ('\r' :: x.1, x.2)) := by rw [parseStringBody.eq_def]; simp

theorem psb_tab (l : List Char) :
    parseStringBody ('\\' :: 't' :: l) =
      (parseStringBody l).map (fun x => ('\t' :: x.1, x.2)) := by rw [parseStringBody.eq_def]; simp

theorem psb_backspace (l : List Char) :
    parseStringBody ('\\' :: 'b' :: l) =
      (parseStringBody l).map (fun x => (Char.ofNat 8 :: x.1, x.2)) := by rw [parseStringBody.eq_def]; simp

theorem psb_formfeed (l : List Char) :
    parseStringBody ('\\' :: 'f' :: l) =
      (parseStringBody l).map (fun x => (Char.ofNat 12 :: x.1, x.2)) := by rw [parseStringBody.eq_def]; simp

theorem psb_unicode (h1 h2 h3 h4 : Char) (l : List Char) :
    parseStringBody ('\\' :: 'u' :: h1 :: h2 :: h3 :: h4 :: l) =
      (match hexDigitVal h1, hexDigitVal h2, hexDigitVal h3, hexDigitVal h4 with
       | some a, some b, some c, some d =>
         (parseStringBody l).map
           (fun x => (Char.ofNat (((a * 16 + b) * 16 + c) * 16 + d) :: x.1, x.2))
       | _, _, _, _ => none) := by rw [parseStringBody.eq_def]; simp

theorem psb_plain {c : Char} (hq : c ≠ '"') (hb : c ≠ '\\')
    (hc : ¬ c.toNat < 32) (l : List Char) :
    parseStringBody (c :: l) =
      (parseStringBody l).map (fun x => (c :: x.1, x.2)) := by
  rw [parseStringBody.eq_def]
  simp [hq, hb, hc]

/-- Parsing inverts escaping: the escaped content followed by the closing
quote parses back to the content, leaving the suffix. -/
theorem parseStringBody_escape (cs : List Char) (rest : List Char) :
    parseStringBody (escapeList cs ++ '"' :: rest) = some (cs, rest) := by
  induction cs with
  | nil => exact psb_close rest
  | cons c cs ih =>
    simp only [escapeList, List.append_assoc]
    by_cases e1 : c = '"'
    · subst e1
      show parseStringBody ('\\' :: '"' :: (escapeList cs ++ '"' :: rest)) = _
      rw [psb_quote, ih]; rfl
    · by_cases e2 : c = '\\'
      · subst e2
        show parseStringBody ('\\' :: '\\' :: (escapeList cs ++ '"' :: rest)) = _
        rw [psb_backslash, ih]; rfl
      · by_cases e3 : c = '\n'
        · subst e3
          show parseStringBody ('\\' :: 'n' :: (escapeList cs ++ '"' :: rest)) = _
          rw [psb_newline, ih]; rfl
        · by_cases e4 : c = '\r'
          · subst e4
            show parseStringBody ('\\' :: 'r' :: (escapeList cs ++ '"' :: rest)) = _
            rw [psb_return, ih]; rfl
          · by_cases e5 : c = '\t'
            · subst e5
              show parseStringBody ('\\' :: 't' :: (escapeList cs ++ '"' :: rest)) = _
              rw [psb_tab, ih]; rfl
            · by_cases e6 : c.toNat = 8
              · have he : escapeChar c = ['\\', 'b'] := by
                  simp only [escapeChar]
                  rw [if_neg e1, if_neg e2, if_neg e3, if_neg e4, if_neg e5, if_pos e6]
                rw [he]
                show parseStringBody ('\\' :: 'b' :: (escapeList cs ++ '"' :: rest)) = _
                rw [psb_backspace, ih]
                have : Char.ofNat 8 = c := by rw [← e6, Char.ofNat_toNat]
                rw [this]; rfl
              · by_cases e7 : c.toNat = 12
                · have he : escapeChar c = ['\\', 'f'] := by
                    simp only [escapeChar]
                    rw [if_neg e1, if_neg e2, if_neg e3, if_neg e4, if_neg e5,
                      if_neg e6, if_pos e7]
                  rw [he]
                  show parseStringBody ('\\' :: 'f' :: (escapeList cs ++ '"' :: rest)) = _
                  rw [psb_formfeed, ih]
                  have : Char.ofNat 12 = c := by rw [← e7, Char.ofNat_toNat]
                  rw [this]; rfl
                · by_cases e8 : c.toNat < 32
                  · have he : escapeChar c = ['\\', 'u', '0', '0',
                        hexDigit (c.toNat / 16), hexDigit (c.toNat % 16)] := by
                      simp only [escapeChar]
                      rw [if_neg e1, if_neg e2, if_neg e3, if_neg e4, if_neg e5,
                        if_neg e6, if_neg e7, if_pos e8]
                    rw [he]
                    show parseStringBody ('\\' :: 'u' :: '0' :: '0' ::
                      hexDigit (c.toNat / 16) :: hexDigit (c.toNat % 16) ::
                      (escapeList cs ++ '"' :: rest)) = _
                    rw [psb_unicode]
                    have hhi : hexDigitVal (hexDigit (c.toNat / 16)) =
                        some (c.toNat / 16) := hexDigitVal_hexDigit (by omega)
                    have hlo : hexDigitVal (hexDigit (c.toNat % 16)) =
                        some (c.toNat % 16) := hexDigitVal_hexDigit (by omega)
                    have h0 : hexDigitVal '0' = some 0 := rfl
                    rw [h0, hhi, hlo]
                    show (parseStringBody (escapeList cs ++ '"' :: rest)).map _ = _
                    rw [ih]
                    have harith : ((0 * 16 + 0) * 16 + c.toNat / 16) * 16 +
                        c.toNat % 16 = c.toNat := by omega
                    show some (Char.ofNat (((0 * 16 + 0) * 16 + c.toNat / 16) * 16 +
                      c.toNat % 16) :: cs, rest) = _
                    rw [harith, Char.ofNat_toNat]
                  · have he : escapeChar c = [c] := by
                      simp only [escapeChar]
                      rw [if_neg e1, if_neg e2, if_neg e3, if_neg e4, if_neg e5,
                        if_neg e6, if_neg e7, if_neg e8]
                    rw [he]
                    show parseStringBody (c :: (escapeList cs ++ '"' :: rest)) = _
                    rw [psb_plain e1 e2 e8, ih]
                    rfl


/-- A string value after `: ` parses back to the string. -/
theorem pv_string (f : Nat) (sd : List Char) (rest : List Char) :
    parseValue (f + 1) (' ' :: '"' :: (escapeList sd ++ ('"' :: rest))) =
      some (Json.str (String.mk sd), rest) := by
  show (parseStringBody (escapeList sd ++ ('"' :: rest))).map
      (fun x => (Json.str (String.mk x.1), x.2)) = _
  rw [parseStringBody_escape]
  rfl

/-- The rendered `junction` field and closing brace parse back. -/
theorem pf_junction (f : Nat) (j : Bool) (rest : List Char) :
    parseFields (f + 2) ('\n' :: (sp 6 ++
      ('"' :: 'j' :: 'u' :: 'n' :: 'c' :: 't' :: 'i' :: 'o' :: 'n' :: '"' :: ':' :: ' ' ::
      (renderBool j ++ ('\n' :: (sp 4 ++ ('}' :: rest))))))) =
      some ([("junction", Json.bool j)], rest) := by
  cases j <;> rfl

/-- The rendered `force` and `junction` fields parse back. -/
theorem pf_force (f : Nat) (frc j : Bool) (rest : List Char) :
    parseFields (f + 3) ('\n' :: (sp 6 ++
      ('"' :: 'f' :: 'o' :: 'r' :: 'c' :: 'e' :: '"' :: ':' :: ' ' ::
      (renderBool frc ++ (',' :: '\n' :: (sp 6 ++
      ('"' :: 'j' :: 'u' :: 'n' :: 'c' :: 't' :: 'i' :: 'o' :: 'n' :: '"' :: ':' :: ' ' ::
      (renderBool j ++ ('\n' :: (sp 4 ++ ('}' :: rest))))))))))) =
      some ([("force", Json.bool frc), ("junction", Json.bool j)], rest) := by
  cases frc <;> cases j <;> rfl

/-- The rendered `dst`, `force` and `junction` fields parse back. -/
theorem pf_dst (f : Nat) (dd : List Char) (frc j : Bool) (rest : List Char) :
    parseFields (f + 4) ('\n' :: (sp 6 ++
      ('"' :: 'd' :: 's' :: 't' :: '"' :: ':' :: ' ' :: '"' ::
      (escapeList dd ++ ('"' :: ',' :: '\n' :: (sp 6 ++
      ('"' :: 'f' :: 'o' :: 'r' :: 'c' :: 'e' :: '"' :: ':' :: ' ' ::
      (renderBool frc ++ (',' :: '\n' :: (sp 6 ++
      ('"' :: 'j' :: 'u' :: 'n' :: 'c' :: 't' :: 'i' :: 'o' :: 'n' :: '"' :: ':' :: ' ' ::
      (renderBool j ++ ('\n' :: (sp 4 ++ ('}' :: rest))))))))))))))) =
      some ([("dst", Json.str (String.mk dd)), ("force", Json.bool frc),
        ("junction", Json.bool j)], rest) := by
  have h1 : parseFields (f + 4) ('\n' :: (sp 6 ++
      ('"' :: 'd' :: 's' :: 't' :: '"' :: ':' :: ' ' :: '"' ::
      (escapeList dd ++ ('"' :: ',' :: '\n' :: (sp 6 ++
      ('"' :: 'f' :: 'o' :: 'r' :: 'c' :: 'e' :: '"' :: ':' :: ' ' ::
      (renderBool frc ++ (',' :: '\n' :: (sp 6 ++
      ('"' :: 'j' :: 'u' :: 'n' :: 'c' :: 't' :: 'i' :: 'o' :: 'n' :: '"' :: ':' :: ' ' ::
      (renderBool j ++ ('\n' :: (sp 4 ++ ('}' :: rest))))))))))))))) =
      (match parseValue (f + 3) (' ' :: '"' :: (escapeList dd ++ ('"' :: ',' :: '\n' :: (sp 6 ++
        ('"' :: 'f' :: 'o' :: 'r' :: 'c' :: 'e' :: '"' :: ':' :: ' ' ::
        (renderBool frc ++ (',' :: '\n' :: (sp 6 ++
        ('"' :: 'j' :: 'u' :: 'n' :: 'c' :: 't' :: 'i' :: 'o' :: 'n' :: '"' :: ':' :: ' ' ::
        (renderBool j ++ ('\n' :: (sp 4 ++ ('}' :: rest))))))))))))) with
       | none => none
       | some (v, rest4) =>
         match skipWs rest4 with
         | ',' :: rest5 => (parseFields (f + 3) rest5).map (fun x => (("dst", v) :: x.1, x.2))
         | '}' :: rest5 => some ([("dst", v)], rest5)
         | _ => none) := rfl
  rw [h1, pv_string]
  show (parseFields (f + 3) ('\n' :: (sp 6 ++ _))).map _ = _
  rw [pf_force]
  rfl

/-- All four rendered fields of a record parse back. -/
theorem pf_src (f : Nat) (sd dd : List Char) (frc j : Bool) (rest : List Char) :
    parseFields (f + 5) ('\n' :: (sp 6 ++
      ('"' :: 's' :: 'r' :: 'c' :: '"' :: ':' :: ' ' :: '"' ::
      (escapeList sd ++ ('"' :: ',' :: '\n' :: (sp 6 ++
      ('"' :: 'd' :: 's' :: 't' :: '"' :: ':' :: ' ' :: '"' ::
      (escapeList dd ++ ('"' :: ',' :: '\n' :: (sp 6 ++
      ('"' :: 'f' :: 'o' :: 'r' :: 'c' :: 'e' :: '"' :: ':' :: ' ' ::
      (renderBool frc ++ (',' :: '\n' :: (sp 6 ++
      ('"' :: 'j' :: 'u' :: 'n' :: 'c' :: 't' :: 'i' :: 'o' :: 'n' :: '"' :: ':' :: ' ' ::
      (renderBool j ++ ('\n' :: (sp 4 ++ ('}' :: rest))))))))))))))))))) =
      some ([("src", Json.str (String.mk sd)), ("dst", Json.str (String.mk dd)),
        ("force", Json.bool frc), ("junction", Json.bool j)], rest) := by
  have h1 : parseFields (f + 5) ('\n' :: (sp 6 ++
      ('"' :: 's' :: 'r' :: 'c' :: '"' :: ':' :: ' ' :: '"' ::
      (escapeList sd ++ ('"' :: ',' :: '\n' :: (sp 6 ++
      ('"' :: 'd' :: 's' :: 't' :: '"' :: ':' :: ' ' :: '"' ::
      (escapeList dd ++ ('"' :: ',' :: '\n' :: (sp 6 ++
      ('"' :: 'f' :: 'o' :: 'r' :: 'c' :: 'e' :: '"' :: ':' :: ' ' ::
      (renderBool frc ++ (',' :: '\n' :: (sp 6 ++
      ('"' :: 'j' :: 'u' :: 'n' :: 'c' :: 't' :: 'i' :: 'o' :: 'n' :: '"' :: ':' :: ' ' ::
      (renderBool j ++ ('\n' :: (sp 4 ++ ('}' :: rest))))))))))))))))))) =
      (match parseValue (f + 4) (' ' :: '"' :: (escapeList sd ++ ('"' :: ',' :: '\n' :: (sp 6 ++
        ('"' :: 'd' :: 's' :: 't' :: '"' :: ':' :: ' ' :: '"' ::
        (escapeList dd ++ ('"' :: ',' :: '\n' :: (sp 6 ++
        ('"' :: 'f' :: 'o' :: 'r' :: 'c' :: 'e' :: '"' :: ':' :: ' ' ::
        (renderBool frc ++ (',' :: '\n' :: (sp 6 ++
        ('"' :: 'j' :: 'u' :: 'n' :: 'c' :: 't' :: 'i' :: 'o' :: 'n' :: '"' :: ':' :: ' ' ::
        (renderBool j ++ ('\n' :: (sp 4 ++ ('}' :: rest))))))))))))))))) with
       | none => none
       | some (v, rest4) =>
         match skipWs rest4 with
         | ',' :: rest5 => (parseFields (f + 4) rest5).map (fun x => (("src", v) :: x.1, x.2))
         | '}' :: rest5 => some ([("src", v)], rest5)
         | _ => none) := rfl
  rw [h1, pv_string]
  show (parseFields (f + 4) ('\n' :: (sp 6 ++ _))).map _ = _
  rw [pf_dst]
  rfl

/-- One rendered record (preceded by its line break and indentation)
parses back to its JSON object. -/
theorem pv_mapping (f : Nat) (m : Mapping) (rest : List Char) :
    parseValue (f + 6) ('\n' :: (sp 4 ++ renderMappingK m rest)) =
      some (jsonOfMapping m, rest) := by
  have h1 : parseValue (f + 6) ('\n' :: (sp 4 ++ renderMappingK m rest)) =
      (parseFields (f + 5) ('\n' :: (sp 6 ++
        ('"' :: 's' :: 'r' :: 'c' :: '"' :: ':' :: ' ' :: '"' ::
        (escapeList m.src.data ++ ('"' :: ',' :: '\n' :: (sp 6 ++
        ('"' :: 'd' :: 's' :: 't' :: '"' :: ':' :: ' ' :: '"' ::
        (escapeList m.dst.data ++ ('"' :: ',' :: '\n' :: (sp 6 ++
        ('"' :: 'f' :: 'o' :: 'r' :: 'c' :: 'e' :: '"' :: ':' :: ' ' ::
        (renderBool m.force ++ (',' :: '\n' :: (sp 6 ++
        ('"' :: 'j' :: 'u' :: 'n' :: 'c' :: 't' :: 'i' :: 'o' :: 'n' :: '"' :: ':' :: ' ' ::
        (renderBool m.junction ++
          ('\n' :: (sp 4 ++ ('}' :: rest)))))))))))))))))))).map
        (fun x => (Json.obj x.1, x.2)) := rfl
  rw [h1, pf_src]
  rfl

/-- A rendered element followed by the remaining rendered elements and
the closing bracket parses back to the element list. -/
theorem pe_elems : ∀ (ms : List Mapping) (m : Mapping) (f : Nat) (rest : List Char),
    parseElems (f + 7 * ms.length + 8)
      ('\n' :: (sp 4 ++ renderMappingK m
        (renderMappingsAuxK ms ('\n' :: (sp 2 ++ (']' :: rest)))))) =
      some (jsonOfMapping m :: ms.map jsonOfMapping, rest) := by
  intro ms
  induction ms with
  | nil =>
    intro m f rest
    have h1 : parseElems (f + 7 * ([] : List Mapping).length + 8)
        ('\n' :: (sp 4 ++ renderMappingK m
          (renderMappingsAuxK [] ('\n' :: (sp 2 ++ (']' :: rest)))))) =
        (match parseValue ((f + 1) + 6)
            ('\n' :: (sp 4 ++ renderMappingK m ('\n' :: (sp 2 ++ (']' :: rest))))) with
         | none => none
         | some (j, rest1) =>
           match skipWs rest1 with
           | ',' :: rest2 => (parseElems (f + 7) rest2).map (fun x => (j :: x.1, x.2))
           | ']' :: rest2 => some ([j], rest2)
           | _ => none) := rfl
    rw [h1, pv_mapping]
    rfl
  | cons m2 ms2 ih =>
    intro m f rest
    have h1 : parseElems (f + 7 * (m2 :: ms2).length + 8)
        ('\n' :: (sp 4 ++ renderMappingK m
          (renderMappingsAuxK (m2 :: ms2) ('\n' :: (sp 2 ++ (']' :: rest)))))) =
        (match parseValue ((f + 7 * ms2.length + 8) + 6)
            ('\n' :: (sp 4 ++ renderMappingK m
              (renderMappingsAuxK (m2 :: ms2) ('\n' :: (sp 2 ++ (']' :: rest)))))) with
         | none => none
         | some (j, rest1) =>
           match skipWs rest1 with
           | ',' :: rest2 =>
             (parseElems (f + 7 * ms2.length + 14) rest2).map
               (fun x => (j :: x.1, x.2))
           | ']' :: rest2 => some ([j], rest2)
           | _ => none) := rfl
    rw [h1, pv_mapping]
    show (parseElems (f + 7 * ms2.length + 14)
        ('\n' :: (sp 4 ++ renderMappingK m2
          (renderMappingsAuxK ms2 ('\n' :: (sp 2 ++ (']' :: rest))))))).map
        (fun x => (jsonOfMapping m :: x.1, x.2)) = _
    have hfuel : f + 7 * ms2.length + 14 = (f + 6) + 7 * ms2.length + 8 := by omega
    rw [hfuel, ih m2 (f + 6) rest]
    rfl

/-- The whole pretty-printed mapping file parses back to the expected
JSON value, consuming the input exactly. -/
theorem pv_top : ∀ (records : List Mapping) (f : Nat),
    parseValue (f + (7 * records.length + 4)) (writeData records) =
      some (Json.obj [("mapping", Json.arr (records.map jsonOfMapping))], []) := by
  intro records f
  cases records with
  | nil => rfl
  | cons m ms =>
    have h1 : parseValue (f + (7 * (m :: ms).length + 4)) (writeData (m :: ms)) =
        Option.map (fun x => (Json.obj x.1, x.2))
          (match Option.map (fun x => (Json.arr x.1, x.2))
              (parseElems (f + 7 * ms.length + 8)
                ('\n' :: (sp 4 ++ renderMappingK m
                  (renderMappingsAuxK ms ('\n' :: (sp 2 ++ (']' :: ('\n' :: ['}'])))))))) with
           | none => none
           | some (v, rest4) =>
             match skipWs rest4 with
             | ',' :: rest5 =>
               Option.map (fun x => ((("mapping" : String), v) :: x.1, x.2))
                 (parseFields (f + 7 * ms.length + 9) rest5)
             | '}' :: rest5 => some ([(("mapping" : String), v)], rest5)
             | _ => none) := rfl
    rw [h1, pe_elems]
    rfl

/-- Length bound: each record accounts for at least seven characters of
its rendering. -/
theorem renderMappingK_len (m : Mapping) (k : List Char) :
    7 + k.length ≤ (renderMappingK m k).length := by
  simp only [renderMappingK, sp, List.length_cons, List.length_append,
    List.length_replicate]
  omega

theorem renderMappingsAuxK_len :
    ∀ (ms : List Mapping) (k : List Char),
      7 * ms.length + k.length ≤ (renderMappingsAuxK ms k).length := by
  intro ms
  induction ms with
  | nil => intro k; simp [renderMappingsAuxK]
  | cons m ms ih =>
    intro k
    have h1 := renderMappingK_len m (renderMappingsAuxK ms k)
    have h2 := ih k
    simp only [renderMappingsAuxK, sp, List.length_cons, List.length_append,
      List.length_replicate, List.length_map] at h1 h2 ⊢
    omega

theorem renderMappingsK_len (records : List Mapping) (k : List Char) :
    7 * records.length + k.length ≤ (renderMappingsK records k).length := by
  cases records with
  | nil => simp [renderMappingsK]; omega
  | cons m ms =>
    have h1 := renderMappingK_len m
      (renderMappingsAuxK ms ('\n' :: (sp 2 ++ (']' :: k))))
    have h2 := renderMappingsAuxK_len ms ('\n' :: (sp 2 ++ (']' :: k)))
    simp only [renderMappingsK, sp, List.length_cons, List.length_append,
      List.length_replicate, List.length_map] at h1 h2 ⊢
    omega

theorem writeData_len (records : List Mapping) :
    7 * records.length + 4 ≤ (writeData records).length + 1 := by
  have h1 := renderMappingsK_len records ('\n' :: ['}'])
  simp only [writeData, sp, List.length_cons, List.length_append,
    List.length_replicate, List.length_nil] at h1 ⊢
  omega

/-- Decoding inverts the record-to-JSON embedding. -/
theorem decodeMapping_jsonOf (m : Mapping) :
    decodeMapping (jsonOfMapping m) = some m := by
  have h1 : ("src" : String) ≠ "dst" := by decide
  have h2 : ("src" : String) ≠ "force" := by decide
  have h3 : ("src" : String) ≠ "junction" := by decide
  have h4 : ("dst" : String) ≠ "force" := by decide
  have h5 : ("dst" : String) ≠ "junction" := by decide
  have h6 : ("force" : String) ≠ "junction" := by decide
  simp [decodeMapping, jsonOfMapping, jLookup, h1, h2, h3, h4, h5, h6]

theorem decodeMappings_jsonOf :
    ∀ l : List Mapping,
      decodeMappings (Json.arr (l.map jsonOfMapping)) = some l := by
  intro l
  induction l with
  | nil => rfl
  | cons m ms ih =>
    simp only [decodeMappings, List.map_cons, List.foldr_cons]
    simp only [decodeMappings] at ih
    rw [decodeMapping_jsonOf, ih]

/-- C7: serializing any list of mapping records with the writer and
deserializing the written text with the reader yields the original list,
in order. -/
theorem C7_roundtrip (records : List Mapping) :
    readMappingFile (writeMappingFile records) = some records := by
  have hb : 7 * records.length + 4 ≤ (writeData records).length + 1 :=
    writeData_len records
  have hsplit : (writeData records).length + 1 =
      ((writeData records).length + 1 - (7 * records.length + 4)) +
        (7 * records.length + 4) := by
    omega
  show (match parseValue ((writeData records).length + 1) (writeData records) with
       | some (j, rest) => if skipWs rest = [] then decodeMappingFile j else none
       | none => none) = some records
  rw [hsplit,
    pv_top records ((writeData records).length + 1 - (7 * records.length + 4))]
  show decodeMappingFile
      (Json.obj [("mapping", Json.arr (records.map jsonOfMapping))]) = some records
  simp [decodeMappingFile, jLookup, decodeMappings_jsonOf]
